import Mathlib

/-!
# gofast client: request-id allocator and the `Handle` session

A shallow embedding of `client.go`.

* `uint16` values are natural numbers below `65536`.
* The unbuffered channel `chanID` holds no values of its own: what a receive can
  obtain is decided by the goroutines blocked sending on it.  Its state is
  therefore the progress of the generator goroutine started by `NewClient`
  together with the values held by the goroutines started by `ReleaseID`.
* Which blocked sender a receive is paired with is the Go scheduler's choice; it is
  an explicit argument (`pick`) so that every statement quantifies over all choices.
* A call that cannot proceed is reported as `blocked`, never as an error.
-/

namespace Gofast

/-! ## Data model -/

/-- Senders blocked on the unbuffered channel `chanID`.

`gen` counts the sends the goroutine of `NewClient` has completed; `waiting` lists,
oldest first, the ids held by the goroutines of `ReleaseID` that have not yet been
received from. -/
structure chanState where
  gen : Nat
  waiting : List Nat

/-- The `client` struct: `chanID chan uint16` and `ids map[uint16]bool`.
A Go map lookup of an absent key yields `false`, so the map is its lookup function. -/
structure client where
  chanID : chanState
  ids : Nat → Bool

/-- Result of a call that may block: it either returns a value, leaving the client in
state `c`, or it is parked on the channel with the client in state `c`. -/
inductive blocking (α : Type) where
  | returned (a : α) (c : client)
  | blocked (c : client)

/-- The value returned, if the call returned. -/
def blocking.val? {α : Type} : blocking α → Option α
  | .returned a _ => some a
  | .blocked _ => none

/-- The client state the call leaves behind. -/
def blocking.state {α : Type} : blocking α → client
  | .returned _ c => c
  | .blocked c => c

/-- Whether the call is parked on the channel. -/
def blocking.isBlocked {α : Type} : blocking α → Bool
  | .returned _ _ => false
  | .blocked _ => true

/-! ## The id allocator -/

/-- The value the goroutine of `NewClient` is blocked sending after `g` completed sends:
`for i := uint16(0); i < 65535; i++ { cid <- i }` followed by `cid <- uint16(65535)`,
after which the goroutine ends. -/
def genOffer (g : Nat) : Option Nat :=
  if g < 65535 then some g
  else if g = 65535 then some 65535
  else none

/-- `NewClient`: a fresh channel with only the generator goroutine on it and an empty map. -/
def NewClient : client :=
  { chanID := { gen := 0, waiting := [] }, ids := fun _ => false }

/-- All values currently offered on `chanID`, the generator's first. -/
def offers (c : client) : List Nat :=
  (genOffer c.chanID.gen).toList ++ c.chanID.waiting

/-- One receive `<-c.chanID`.  The receive is paired with the blocked sender number
`pick % n` among the `n` senders of `offers`; with no sender it does not complete. -/
def recv (c : client) (pick : Nat) : Option (Nat × client) :=
  let n := (offers c).length
  if n = 0 then none
  else
    let i := pick % n
    match genOffer c.chanID.gen with
    | some v =>
      if i = 0 then
        some (v, { c with chanID := { c.chanID with gen := c.chanID.gen + 1 } })
      else
        some (c.chanID.waiting.getD (i - 1) 0,
          { c with chanID := { c.chanID with waiting := c.chanID.waiting.eraseIdx (i - 1) } })
    | none =>
      some (c.chanID.waiting.getD i 0,
        { c with chanID := { c.chanID with waiting := c.chanID.waiting.eraseIdx i } })

/-- Number of sends that can still be received from the channel without a further
`ReleaseID`: what the generator has left plus the waiting release goroutines. -/
def remaining (c : client) : Nat :=
  (65536 - c.chanID.gen) + c.chanID.waiting.length

/-- The `for` loop of `AllocID`: receive a candidate, `break` unless `c.ids[reqID]` is
`true`, then `c.ids[reqID] = true; return`.  `sched` lists the scheduler's pick for each
receive in turn (`0` once the list is used up).  The first argument bounds the number of
receives by `remaining`, which every receive lowers by one, so it reaches `0` only when
the channel has no sender left. -/
def AllocID.loop : Nat → client → List Nat → blocking Nat
  | 0, c, _ => .blocked c
  | fuel + 1, c, sched =>
    match recv c (sched.headD 0) with
    | none => .blocked c
    | some (reqID, c1) =>
      if c1.ids reqID = true then AllocID.loop fuel c1 sched.tail
      else .returned reqID { c1 with ids := fun k => if k = reqID then true else c1.ids k }

/-- `client.AllocID`. -/
def AllocID (c : client) (sched : List Nat) : blocking Nat :=
  AllocID.loop (remaining c) c sched

/-- `client.ReleaseID`: `c.ids[reqID] = false`, then a new goroutine blocked on
`c.chanID <- reqID`. -/
def ReleaseID (c : client) (reqID : Nat) : client :=
  { chanID := { c.chanID with waiting := c.chanID.waiting ++ [reqID] },
    ids := fun k => if k = reqID then false else c.ids k }

/-! ## Sequences of allocator calls -/

/-- A call on the allocator; an `AllocID` call carries the scheduler's picks for it. -/
inductive call where
  | alloc (sched : List Nat)
  | release (reqID : Nat)

/-- What a call did, as seen by its caller. -/
inductive event where
  | allocated (reqID : Nat)
  | allocBlocked
  | released (reqID : Nat)
deriving DecidableEq, Repr

/-- One call, executed to its end (or until it is parked). -/
def step (c : client) : call → event × client
  | .alloc sched =>
    match AllocID c sched with
    | .returned reqID c1 => (.allocated reqID, c1)
    | .blocked c1 => (.allocBlocked, c1)
  | .release reqID => (.released reqID, ReleaseID c reqID)

/-- Calls executed one at a time; the events are in the order of the calls.  A parked
`AllocID` contributes no id; a later `alloc` in the list stands for its resumption. -/
def run (c : client) : List call → List event × client
  | [] => ([], c)
  | k :: ks =>
    match step c k with
    | (e, c1) =>
      match run c1 ks with
      | (es, c2) => (e :: es, c2)

/-- Whether id `i` is in use after the events `tr`: it was returned by an `AllocID`
and has not been passed to `ReleaseID` since. -/
def inUse (tr : List event) (i : Nat) : Bool :=
  tr.foldl (fun b e =>
    match e with
    | .allocated j => if j = i then true else b
    | .allocBlocked => b
    | .released j => if j = i then false else b) false

/-- The ids returned by the `AllocID` calls of a trace, in order. -/
def allocatedIds : List event → List Nat
  | [] => []
  | .allocated j :: es => j :: allocatedIds es
  | _ :: es => allocatedIds es

/-- The fields of `Request` that `client.go` uses: `ID uint16`, `Params map[string]string`
(as its list of pairs) and `Content` (as its bytes). -/
structure Request where
  ID : Nat
  Params : List (String × String)
  Content : List Nat
deriving DecidableEq

/-- `client.NewRequest`: `&Request{ID: c.AllocID(), Params: make(map[string]string)}`;
`Content` keeps its zero value.  The call is parked exactly when its `AllocID` is. -/
def NewRequest (c : client) (sched : List Nat) : blocking Request :=
  match AllocID c sched with
  | .returned reqID c1 => .returned { ID := reqID, Params := [], Content := [] } c1
  | .blocked c1 => .blocked c1

/-- Closed form of the client after `n` calls of `AllocID` and no `ReleaseID`: the
generator has completed `n` sends and exactly the ids below `n` are marked. -/
def allocatedUpTo (n : Nat) : client :=
  { chanID := { gen := n, waiting := [] }, ids := fun k => decide (k < n) }

/-! ## The request session -/

/-- Constants of the package that `Handle` uses and that are declared outside
`client.go`; they are parameters.  The three record types of the `switch` are `case`
constants of one `switch` statement, which Go accepts only if they differ. -/
structure consts where
  roleResponder : Nat
  typeParams : Nat
  typeStdin : Nat
  typeStdout : Nat
  typeStderr : Nat
  typeEndRequest : Nat
  stdout_ne_stderr : typeStdout ≠ typeStderr
  stdout_ne_end : typeStdout ≠ typeEndRequest
  stderr_ne_end : typeStderr ≠ typeEndRequest

/-- The header fields of a record that matter here: `Type` and the request id `Id`. -/
structure header where
  type : Nat
  Id : Nat
deriving DecidableEq

/-- A decoded `record`: its header `h` and the bytes that `rec.content()` returns. -/
structure record where
  h : header
  content : List Nat
deriving DecidableEq

/-- Result of one `rec.read(c.conn.rwc)`: an error, or the record now held in `rec`. -/
inductive readResult where
  | failed (e : Nat)
  | got (r : record)
deriving DecidableEq

/-- The connection `c.conn` as `Handle` meets it.  Its methods are declared outside
`client.go`, so their results are parameters: the `error` (`none` is `nil`) that each
write returns for its arguments, and the results of the successive reads.  When `reads`
is used up the peer sends nothing more and the next read does not return. -/
structure conn where
  writeBeginRequest : Nat → Nat → Nat → Option Nat
  writePairs : Nat → Nat → List (String × String) → Option Nat
  writeRecord : Nat → Nat → List Nat → Option Nat
  reads : List readResult

/-- An `io.Writer`: the `error` its `Write` returns, given the chunks it was handed
before and the chunk handed now. -/
abbrev Writer := List (List Nat) → List Nat → Option Nat

/-- What `Handle` does to its collaborators, in order, each with the result it got. -/
inductive action where
  | beginRequest (reqID role flags : Nat) (res : Option Nat)
  | pairs (recType reqID : Nat) (params : List (String × String)) (res : Option Nat)
  | record (recType reqID : Nat) (content : List Nat) (res : Option Nat)
  | read (res : readResult)
  | out (content : List Nat) (res : Option Nat)
  | err (content : List Nat) (res : Option Nat)
  | release (reqID : Nat)
deriving DecidableEq

/-- The chunks handed to `wOut`, in order. -/
def outChunks : List action → List (List Nat)
  | [] => []
  | .out b _ :: tr => b :: outChunks tr
  | _ :: tr => outChunks tr

/-- The chunks handed to `wErr`, in order. -/
def errChunks : List action → List (List Nat)
  | [] => []
  | .err b _ :: tr => b :: errChunks tr
  | _ :: tr => errChunks tr

/-- The results of the reads performed, in order. -/
def readsDone : List action → List readResult
  | [] => []
  | .read r :: tr => r :: readsDone tr
  | _ :: tr => readsDone tr

/-- The ids passed to `ReleaseID`, in order. -/
def released : List action → List Nat
  | [] => []
  | .release j :: tr => j :: released tr
  | _ :: tr => released tr

/-- The writes issued on the connection, in order. -/
def connWrites : List action → List action
  | [] => []
  | .beginRequest i r f e :: tr => .beginRequest i r f e :: connWrites tr
  | .pairs t i p e :: tr => .pairs t i p e :: connWrites tr
  | .record t i b e :: tr => .record t i b e :: connWrites tr
  | _ :: tr => connWrites tr

/-- How the `readLoop` of `Handle` ends. -/
inductive loopExit where
  | readFailed (e : Nat)
  | endRequest
  | unexpected (recType : Nat)
  | starved
deriving DecidableEq

/-- The `readLoop` of `Handle`, run on the read results still to come; `tr` are the
actions so far.  Returns how the loop ends, the actions, and the read results left
unconsumed.  A failed read and `typeEndRequest` leave the loop, an unlisted type
panics, and the results of `wOut.Write` and `wErr.Write` are dropped. -/
def Handle.readLoop (K : consts) (wOut wErr : Writer) :
    List readResult → List action → loopExit × List action × List readResult
  | [], tr => (.starved, tr, [])
  | .failed e :: rest, tr => (.readFailed e, tr ++ [.read (.failed e)], rest)
  | .got rec :: rest, tr =>
    if rec.h.type = K.typeStdout then
      Handle.readLoop K wOut wErr rest
        (tr ++ [.read (.got rec), .out rec.content (wOut (outChunks tr) rec.content)])
    else if rec.h.type = K.typeStderr then
      Handle.readLoop K wOut wErr rest
        (tr ++ [.read (.got rec), .err rec.content (wErr (errChunks tr) rec.content)])
    else if rec.h.type = K.typeEndRequest then
      (.endRequest, tr ++ [.read (.got rec)], rest)
    else
      (.unexpected rec.h.type, tr ++ [.read (.got rec)], rest)

/-- How a call of `Handle` ends: it returns its result `err`, it panics on a record type,
or it never finishes because a read never returns. -/
inductive outcome where
  | returned (err : Option Nat)
  | panicked (recType : Nat)
  | blocked
deriving DecidableEq

/-- Modelled from the spec: `Request.GetID` is declared outside `client.go`; the spec
knows it as the request's `id`. -/
def Request.GetID (req : Request) : Nat := req.ID

/-- The part of `Handle` from `var rec record` on: the read loop and the final `return`.
`err` is the named result as the writes left it.  The loop declares an `err` of its own
in `if err := rec.read(c.conn.rwc); err != nil`, so neither way out of the loop assigns
the named result, and the final `return` yields it unchanged. -/
def Handle.reading (K : consts) (cn : conn) (wOut wErr : Writer) (err : Option Nat)
    (tr : List action) : outcome × List action × List readResult :=
  match Handle.readLoop K wOut wErr cn.reads tr with
  | (.readFailed _, tr1, rest) => (.returned err, tr1, rest)
  | (.endRequest, tr1, rest) => (.returned err, tr1, rest)
  | (.unexpected t, tr1, rest) => (.panicked t, tr1, rest)
  | (.starved, tr1, rest) => (.blocked, tr1, rest)

/-- The body of `Handle` up to the point where the function is left: the three writes,
each followed by `if err != nil { return }`, then the read loop. -/
def Handle.body (K : consts) (cn : conn) (wOut wErr : Writer) (req : Request) :
    outcome × List action × List readResult :=
  let err := cn.writeBeginRequest req.GetID K.roleResponder 0
  let tr := [action.beginRequest req.GetID K.roleResponder 0 err]
  if err ≠ none then (.returned err, tr, cn.reads)
  else
    let err := cn.writePairs K.typeParams req.GetID req.Params
    let tr := tr ++ [action.pairs K.typeParams req.GetID req.Params err]
    if err ≠ none then (.returned err, tr, cn.reads)
    else if req.Content.length > 0 then
      let err := cn.writeRecord K.typeStdin req.GetID req.Content
      let tr := tr ++ [action.record K.typeStdin req.GetID req.Content err]
      if err ≠ none then (.returned err, tr, cn.reads)
      else Handle.reading K cn wOut wErr err tr
    else Handle.reading K cn wOut wErr err tr

/-- What a call of `Handle` leaves behind. -/
structure handled where
  exit : outcome
  trace : List action
  unread : List readResult
  c : client

/-- `client.Handle`.  `defer c.ReleaseID(req.GetID())` evaluates its argument on entry
and runs the call when the function is left, by `return` or by panic; a call that never
finishes never runs it. -/
def Handle (K : consts) (cn : conn) (wOut wErr : Writer) (c : client) (req : Request) :
    handled :=
  let reqID := req.GetID
  match Handle.body K cn wOut wErr req with
  | (.blocked, tr, rest) => { exit := .blocked, trace := tr, unread := rest, c := c }
  | (e, tr, rest) =>
    { exit := e, trace := tr ++ [.release reqID], unread := rest, c := ReleaseID c reqID }

/-- The FastCGI numbering of the constants, for concrete runs. -/
def fcgi : consts :=
  { roleResponder := 1, typeParams := 4, typeStdin := 5, typeStdout := 6, typeStderr := 7,
    typeEndRequest := 3, stdout_ne_stderr := by decide, stdout_ne_end := by decide,
    stderr_ne_end := by decide }

/-- A connection on which every write succeeds and the reads give `rs`. -/
def okConn (rs : List readResult) : conn :=
  { writeBeginRequest := fun _ _ _ => none, writePairs := fun _ _ _ => none,
    writeRecord := fun _ _ _ => none, reads := rs }

/-- A sink whose `Write` always succeeds. -/
def okWriter : Writer := fun _ _ => none

/-- All write steps of `Handle` succeed on this connection for this request. -/
def writesOk (K : consts) (cn : conn) (req : Request) : Prop :=
  cn.writeBeginRequest req.GetID K.roleResponder 0 = none ∧
  cn.writePairs K.typeParams req.GetID req.Params = none ∧
  (req.Content.length > 0 → cn.writeRecord K.typeStdin req.GetID req.Content = none)

instance (K : consts) (cn : conn) (req : Request) : Decidable (writesOk K cn req) := by
  unfold writesOk; infer_instance

/-- The actions of the write steps when all of them succeed. -/
def preamble (K : consts) (req : Request) : List action :=
  [.beginRequest req.GetID K.roleResponder 0 none,
    .pairs K.typeParams req.GetID req.Params none] ++
  (if req.Content.length > 0 then [.record K.typeStdin req.GetID req.Content none] else [])

/-- A read result that keeps the loop going: a record of type Stdout or Stderr. -/
def isStream (K : consts) : readResult → Bool
  | .got r => decide (r.h.type = K.typeStdout) || decide (r.h.type = K.typeStderr)
  | .failed _ => false

/-- The contents of the records of type `t` among read results, in order. -/
def contentsOf (t : Nat) : List readResult → List (List Nat)
  | [] => []
  | .got r :: rs => if r.h.type = t then r.content :: contentsOf t rs else contentsOf t rs
  | .failed _ :: rs => contentsOf t rs

/-- A connection whose first write, the BeginRequest record, fails with error `e`. -/
def beginFailConn (e : Nat) (rs : List readResult) : conn :=
  { okConn rs with writeBeginRequest := fun _ _ _ => some e }

/-- A connection whose Params write fails with error `e`. -/
def pairsFailConn (e : Nat) (rs : List readResult) : conn :=
  { okConn rs with writePairs := fun _ _ _ => some e }

/-- A connection whose Stdin write fails with error `e`. -/
def stdinFailConn (e : Nat) (rs : List readResult) : conn :=
  { okConn rs with writeRecord := fun _ _ _ => some e }

/-- A read result with the request id of its record replaced by `f` of the record. -/
def reId (f : record → Nat) : readResult → readResult
  | .got r => .got { r with h := { r.h with Id := f r } }
  | .failed e => .failed e

/-- An action with the request id of the record read, if it is a read, replaced. -/
def reIdAction (f : record → Nat) : action → action
  | .read x => .read (reId f x)
  | a => a

/-- The pending candidates of the channel: the ids queued by the goroutines of
`ReleaseID`, then the values the generator goroutine has still to produce. -/
def candidates (c : client) : List Nat :=
  c.chanID.waiting ++ List.range' c.chanID.gen (65536 - c.chanID.gen)

/-- Well-formed use: along the calls, every `ReleaseID` is passed an id that is in use at
that moment according to the events `tr` so far (returned by an `AllocID` and not
released since). -/
def wellFormed (tr : List event) (c : client) : List call → Bool
  | [] => true
  | .alloc sched :: ks =>
    wellFormed (tr ++ [(step c (.alloc sched)).1]) (step c (.alloc sched)).2 ks
  | .release reqID :: ks =>
    inUse tr reqID && wellFormed (tr ++ [.released reqID]) (ReleaseID c reqID) ks

/-- The shape of the client under well-formed use: no id waits twice, every waiting id
has been produced by the generator and is not marked, and every marked id has been
produced by the generator. -/
def tidy (c : client) : Prop :=
  c.chanID.waiting.Nodup ∧
  (∀ w ∈ c.chanID.waiting, w < c.chanID.gen ∧ c.ids w = false) ∧
  (∀ i, c.ids i = true → i < c.chanID.gen) ∧
  c.chanID.gen ≤ 65536

/-- An action with the result of the sink's `Write`, if it is one, blanked out. -/
def forgetSink : action → action
  | .out b _ => .out b none
  | .err b _ => .err b none
  | a => a

/-! ## Calls as interleaved steps -/

/-- Where a call stands.  An `AllocID` call is at the receive `reqID = <-c.chanID`, at the
test `c.ids[reqID] != true`, at the assignment `c.ids[reqID] = true`, or has returned
`reqID`.  A `ReleaseID` call is at the assignment `c.ids[reqID] = false`, at the `go`
statement, or has returned. -/
inductive pc where
  | allocRecv
  | allocTest (reqID : Nat)
  | allocMark (reqID : Nat)
  | allocDone (reqID : Nat)
  | releaseClear (reqID : Nat)
  | releaseGo (reqID : Nat)
  | releaseDone
deriving DecidableEq

/-- One step of a call in state `c`, `none` when the call cannot move: it has returned, or
it is an `AllocID` at the receive with no sender on the channel.  The `go` statement only
starts the goroutine; the send `c.chanID <- reqID` in it is the new entry of `waiting`
and completes when a receive is paired with it. -/
def stepCall (c : client) (pick : Nat) : pc → Option (pc × client)
  | .allocRecv =>
    match recv c pick with
    | none => none
    | some (reqID, c1) => some (.allocTest reqID, c1)
  | .allocTest reqID => some (if c.ids reqID = true then .allocRecv else .allocMark reqID, c)
  | .allocMark reqID =>
    some (.allocDone reqID, { c with ids := fun k => if k = reqID then true else c.ids k })
  | .allocDone _ => none
  | .releaseClear reqID =>
    some (.releaseGo reqID, { c with ids := fun k => if k = reqID then false else c.ids k })
  | .releaseGo reqID =>
    some (.releaseDone,
      { c with chanID := { c.chanID with waiting := c.chanID.waiting ++ [reqID] } })
  | .releaseDone => none

/-- A client together with the calls under way on it, one entry per caller. -/
structure world where
  c : client
  calls : List pc

/-- The caller number `k` takes one step, with scheduler pick `pick`; a call that cannot
move, or a number that names no call, leaves the world as it is. -/
def world.step (w : world) (k pick : Nat) : world :=
  match w.calls[k]? with
  | none => w
  | some p =>
    match stepCall w.c pick p with
    | none => w
    | some (p1, c1) => { c := c1, calls := w.calls.set k p1 }

/-- An interleaving: the list names, step by step, the caller that moves and its pick. -/
def interleave (w : world) : List (Nat × Nat) → world
  | [] => w
  | (k, pick) :: rest => interleave (w.step k pick) rest

/-- One call run on its own for at most `n` steps; an `AllocID` uses up one pick of
`sched` at each receive. -/
def solo : Nat → client → List Nat → pc → pc × client
  | 0, c, _, p => (p, c)
  | n + 1, c, sched, p =>
    match stepCall c (sched.headD 0) p with
    | none => (p, c)
    | some (p1, c1) =>
      solo n c1 (match p with
        | .allocRecv => sched.tail
        | _ => sched) p1

/-- Rounds of `ReleaseID(1)` followed by an `AllocID` that is paired with the goroutine of
that release. -/
def releaseAllocRounds : Nat → List call
  | 0 => []
  | n + 1 => .release 1 :: .alloc [2] :: releaseAllocRounds n

/-- The client after `AllocID`, `AllocID`, `ReleaseID(0)` on a fresh client: the generator
has produced `0` and `1`, the released `0` waits on the channel, and `1` is marked. -/
def zeroWaiting : client :=
  { chanID := { gen := 2, waiting := [0] }, ids := fun k => decide (k = 1) }

/-! ## Lemmas on the allocator -/

theorem genOffer_lt {g v : Nat} (h : genOffer g = some v) : v < 65536 ∧ g < 65536 ∧ v = g := by
  unfold genOffer at h
  split_ifs at h with h1 h2
  · simp only [Option.some.injEq] at h; omega
  · simp only [Option.some.injEq] at h; omega

theorem genOffer_of_lt {g : Nat} (h : g < 65536) : genOffer g = some g := by
  unfold genOffer
  split_ifs with h1 h2
  · rfl
  · rw [h2]
  · omega

theorem genOffer_none {g : Nat} : genOffer g = none ↔ 65536 ≤ g := by
  unfold genOffer
  split_ifs with h1 h2 <;> simp <;> omega

/-- The two ways a receive completes: from the generator goroutine, or from the
release goroutine at some position `j` of `waiting`. -/
theorem recv_cases {c c1 : client} {pick v : Nat} (h : recv c pick = some (v, c1)) :
    (genOffer c.chanID.gen = some v ∧
      c1 = { c with chanID := { c.chanID with gen := c.chanID.gen + 1 } }) ∨
    (∃ j, j < c.chanID.waiting.length ∧ v = c.chanID.waiting.getD j 0 ∧
      c1 = { c with chanID := { c.chanID with waiting := c.chanID.waiting.eraseIdx j } }) := by
  unfold recv at h
  simp only at h
  by_cases h0 : (offers c).length = 0
  · rw [if_pos h0] at h
    cases h
  · rw [if_neg h0] at h
    have hmod : pick % (offers c).length < (offers c).length :=
      Nat.mod_lt _ (Nat.pos_of_ne_zero h0)
    have hlen : (offers c).length =
        (genOffer c.chanID.gen).toList.length + c.chanID.waiting.length := by
      simp [offers]
    cases hg : genOffer c.chanID.gen with
    | none =>
      rw [hg] at h hlen
      simp only [Option.toList_none, List.length_nil, Nat.zero_add] at hlen
      simp only [Option.some.injEq, Prod.mk.injEq] at h
      exact Or.inr ⟨_, by omega, h.1.symm, h.2.symm⟩
    | some v0 =>
      rw [hg] at h hlen
      simp only [Option.toList_some, List.length_singleton] at hlen
      dsimp only at h
      by_cases hi : pick % (offers c).length = 0
      · rw [if_pos hi] at h
        simp only [Option.some.injEq, Prod.mk.injEq] at h
        exact Or.inl ⟨by rw [h.1], h.2.symm⟩
      · rw [if_neg hi] at h
        simp only [Option.some.injEq, Prod.mk.injEq] at h
        exact Or.inr ⟨_, by omega, h.1.symm, h.2.symm⟩

/-- A receive leaves the map `ids` alone. -/
theorem recv_ids {c c1 : client} {pick v : Nat} (h : recv c pick = some (v, c1)) :
    c1.ids = c.ids := by
  rcases recv_cases h with ⟨_, rfl⟩ | ⟨j, _, _, rfl⟩ <;> rfl

/-- A receive with no sender left is exactly a channel with `remaining = 0`. -/
theorem recv_eq_none {c : client} {pick : Nat} : recv c pick = none ↔ remaining c = 0 := by
  have hlen : (offers c).length =
      (genOffer c.chanID.gen).toList.length + c.chanID.waiting.length := by
    simp [offers]
  constructor
  · intro h
    unfold recv at h
    simp only at h
    by_cases h0 : (offers c).length = 0
    · rw [h0] at hlen
      cases hg : genOffer c.chanID.gen with
      | none =>
        rw [hg] at hlen
        simp only [Option.toList_none, List.length_nil, Nat.zero_add] at hlen
        have := genOffer_none.mp hg
        simp only [remaining]; omega
      | some v0 =>
        rw [hg] at hlen
        simp only [Option.toList_some, List.length_singleton] at hlen
        omega
    · rw [if_neg h0] at h
      cases hg : genOffer c.chanID.gen with
      | none => rw [hg] at h; cases h
      | some v0 =>
        rw [hg] at h
        dsimp only at h
        by_cases hi : pick % (offers c).length = 0
        · rw [if_pos hi] at h; cases h
        · rw [if_neg hi] at h; cases h
  · intro h
    simp only [remaining] at h
    have hg : genOffer c.chanID.gen = none := genOffer_none.mpr (by omega)
    rw [hg] at hlen
    simp only [Option.toList_none, List.length_nil, Nat.zero_add] at hlen
    unfold recv
    simp only
    rw [if_pos (by omega)]

/-- Every completed receive uses up one of the `remaining` sends. -/
theorem recv_remaining {c c1 : client} {pick v : Nat} (h : recv c pick = some (v, c1)) :
    remaining c1 + 1 = remaining c := by
  rcases recv_cases h with ⟨hg, rfl⟩ | ⟨j, hj, _, rfl⟩
  · have := genOffer_lt hg
    simp only [remaining]; omega
  · simp only [remaining]
    rw [List.length_eraseIdx_of_lt hj]
    omega

/-- The bound on the number of receives is never what stops the loop: any bound of at
least `remaining c` gives the result of `AllocID`. -/
theorem AllocID_loop_fuel (fuel : Nat) (c : client) (sched : List Nat)
    (h : remaining c ≤ fuel) : AllocID.loop fuel c sched = AllocID c sched := by
  unfold AllocID
  induction fuel generalizing c sched with
  | zero =>
    have h0 : remaining c = 0 := by omega
    rw [h0]
  | succ n ih =>
    cases hr : recv c (sched.headD 0) with
    | none =>
      have h0 := recv_eq_none.mp hr
      rw [h0]
      simp only [AllocID.loop, hr]
    | some p =>
      obtain ⟨v, c1⟩ := p
      have h1 := recv_remaining hr
      obtain ⟨m, hm⟩ : ∃ m, remaining c = m + 1 := ⟨remaining c1, h1.symm⟩
      rw [hm]
      simp only [AllocID.loop, hr]
      have hm1 : remaining c1 = m := by omega
      split_ifs
      · rw [ih c1 _ (by omega), hm1]
      · rfl

/-- The loop of `AllocID`, one iteration at a time, with the bound out of the way. -/
theorem AllocID_unfold (c : client) (sched : List Nat) :
    AllocID c sched =
      match recv c (sched.headD 0) with
      | none => .blocked c
      | some (reqID, c1) =>
        if c1.ids reqID = true then AllocID c1 sched.tail
        else .returned reqID { c1 with ids := fun k => if k = reqID then true else c1.ids k } := by
  cases hr : recv c (sched.headD 0) with
  | none =>
    have h0 := recv_eq_none.mp hr
    simp only [AllocID, h0, AllocID.loop]
  | some p =>
    obtain ⟨v, c1⟩ := p
    have h1 := recv_remaining hr
    simp only [AllocID, ← h1, AllocID.loop, hr]

/-- What the loop of `AllocID` does to the map: a returned id was not marked before and
is the only key that changes; a parked call changes nothing. -/
theorem AllocID_loop_ids (fuel : Nat) (c : client) (sched : List Nat) :
    (∀ v c1, AllocID.loop fuel c sched = .returned v c1 →
      c.ids v = false ∧ ∀ k, c1.ids k = if k = v then true else c.ids k) ∧
    (∀ c1, AllocID.loop fuel c sched = .blocked c1 → c1.ids = c.ids) := by
  induction fuel generalizing c sched with
  | zero =>
    constructor
    · intro v c1 h; simp only [AllocID.loop] at h; cases h
    · intro c1 h; simp only [AllocID.loop, blocking.blocked.injEq] at h; rw [← h]
  | succ n ih =>
    cases hr : recv c (sched.headD 0) with
    | none =>
      constructor
      · intro v c1 h; simp only [AllocID.loop, hr] at h; cases h
      · intro c1 h; simp only [AllocID.loop, hr, blocking.blocked.injEq] at h; rw [← h]
    | some p =>
      obtain ⟨w, c2⟩ := p
      have hids := recv_ids hr
      by_cases hw : c2.ids w = true
      · have hl : AllocID.loop (n + 1) c sched = AllocID.loop n c2 sched.tail := by
          simp only [AllocID.loop, hr, if_pos hw]
        rw [hl, ← hids]
        exact ih c2 sched.tail
      · have hl : AllocID.loop (n + 1) c sched =
            .returned w { c2 with ids := fun k => if k = w then true else c2.ids k } := by
          simp only [AllocID.loop, hr, if_neg hw]
        rw [hl]
        constructor
        · intro v c1 h
          simp only [blocking.returned.injEq] at h
          obtain ⟨rfl, rfl⟩ := h
          rw [← hids]
          exact ⟨by simpa using hw, fun k => rfl⟩
        · intro c1 h; cases h

theorem inUse_append_allocated (tr : List event) (j i : Nat) :
    inUse (tr ++ [.allocated j]) i = if j = i then true else inUse tr i := by
  simp only [inUse, List.foldl_append, List.foldl_cons, List.foldl_nil]

theorem inUse_append_released (tr : List event) (j i : Nat) :
    inUse (tr ++ [.released j]) i = if j = i then false else inUse tr i := by
  simp only [inUse, List.foldl_append, List.foldl_cons, List.foldl_nil]

theorem inUse_append_allocBlocked (tr : List event) (i : Nat) :
    inUse (tr ++ [.allocBlocked]) i = inUse tr i := by
  simp only [inUse, List.foldl_append, List.foldl_cons, List.foldl_nil]

theorem run_nil (c : client) : run c [] = ([], c) := rfl

theorem run_cons (c : client) (k : call) (ks : List call) :
    run c (k :: ks) = ((step c k).1 :: (run (step c k).2 ks).1, (run (step c k).2 ks).2) := rfl

/-- One call keeps the map `ids` equal to the in-use set read off the history. -/
theorem step_inUse (c : client) (k : call) (pre : List event)
    (h : ∀ i, c.ids i = inUse pre i) :
    ∀ i, (step c k).2.ids i = inUse (pre ++ [(step c k).1]) i := by
  intro i
  cases k with
  | alloc sched =>
    have hl := AllocID_loop_ids (remaining c) c sched
    cases ha : AllocID c sched with
    | returned v c1 =>
      have h1 := (hl.1 v c1 ha).2 i
      simp only [step, ha]
      rw [inUse_append_allocated, h1, h i]
      by_cases hv : i = v
      · simp [hv]
      · have : ¬ v = i := fun e => hv e.symm
        simp [hv, this]
    | blocked c1 =>
      have h1 := hl.2 c1 ha
      simp only [step, ha]
      rw [inUse_append_allocBlocked, h1, h i]
  | release j =>
    simp only [step, ReleaseID]
    rw [inUse_append_released, h i]
    by_cases hv : i = j
    · simp [hv]
    · have : ¬ j = i := fun e => hv e.symm
      simp [hv, this]

/-- Along any sequence of calls the map `ids` is the in-use set of the history. -/
theorem run_inUse (calls : List call) (c : client) (pre : List event)
    (h : ∀ i, c.ids i = inUse pre i) :
    ∀ i, (run c calls).2.ids i = inUse (pre ++ (run c calls).1) i := by
  induction calls generalizing c pre with
  | nil => simpa [run_nil] using h
  | cons k ks ih =>
    intro i
    rw [run_cons]
    have := ih (step c k).2 (pre ++ [(step c k).1]) (step_inUse c k pre h) i
    simpa using this

theorem NewClient_inUse : ∀ i, NewClient.ids i = inUse [] i := fun _ => rfl

/-! ## Claims on the allocator -/

/-- C1: after any sequence of `AllocID` and `ReleaseID` calls on a fresh client, executed
one at a time with arbitrary scheduler picks and arbitrary released values, an id that
`AllocID` returns is not in use at that moment, in use meaning returned by an earlier
`AllocID` and not passed to `ReleaseID` since. -/
theorem AllocID_not_in_use (calls : List call) (sched : List Nat) (reqID : Nat)
    (h : (AllocID (run NewClient calls).2 sched).val? = some reqID) :
    inUse (run NewClient calls).1 reqID = false := by
  have hinv := run_inUse calls NewClient [] NewClient_inUse reqID
  rw [List.nil_append] at hinv
  rw [← hinv]
  cases ha : AllocID (run NewClient calls).2 sched with
  | returned v c1 =>
    rw [ha] at h
    simp only [blocking.val?, Option.some.injEq] at h
    subst h
    exact ((AllocID_loop_ids _ _ sched).1 v c1 ha).1
  | blocked c1 =>
    rw [ha] at h
    simp [blocking.val?] at h

theorem AllocID_not_in_use_witness :
    (AllocID (run NewClient
        [.alloc [], .alloc [], .release 0, .release 0, .alloc [1]]).2
        [1, 0]).val? = some 2 ∧
    inUse (run NewClient
        [.alloc [], .alloc [], .release 0, .release 0, .alloc [1]]).1 2
      = false :=
  ⟨by decide, AllocID_not_in_use _ [1, 0] 2 (by decide)⟩

/-- With only `uint16` values released, a receive yields a `uint16` value. -/
theorem recv_lt {c c1 : client} {pick v : Nat}
    (hw : ∀ w ∈ c.chanID.waiting, w < 65536) (h : recv c pick = some (v, c1)) :
    v < 65536 ∧ ∀ w ∈ c1.chanID.waiting, w < 65536 := by
  rcases recv_cases h with ⟨hg, rfl⟩ | ⟨j, hj, hv, rfl⟩
  · exact ⟨(genOffer_lt hg).1, hw⟩
  · constructor
    · rw [hv, List.getD_eq_getElem _ _ hj]
      exact hw _ (List.getElem_mem _)
    · intro w hmem
      exact hw w (List.mem_of_mem_eraseIdx hmem)

theorem AllocID_loop_lt (fuel : Nat) (c : client) (sched : List Nat)
    (hw : ∀ w ∈ c.chanID.waiting, w < 65536) :
    (∀ v c1, AllocID.loop fuel c sched = .returned v c1 →
      v < 65536 ∧ ∀ w ∈ c1.chanID.waiting, w < 65536) ∧
    (∀ c1, AllocID.loop fuel c sched = .blocked c1 → ∀ w ∈ c1.chanID.waiting, w < 65536) := by
  induction fuel generalizing c sched with
  | zero =>
    constructor
    · intro v c1 h; simp only [AllocID.loop] at h; cases h
    · intro c1 h; simp only [AllocID.loop, blocking.blocked.injEq] at h; rw [← h]; exact hw
  | succ n ih =>
    cases hr : recv c (sched.headD 0) with
    | none =>
      constructor
      · intro v c1 h; simp only [AllocID.loop, hr] at h; cases h
      · intro c1 h; simp only [AllocID.loop, hr, blocking.blocked.injEq] at h; rw [← h]; exact hw
    | some p =>
      obtain ⟨w, c2⟩ := p
      have h2 := recv_lt hw hr
      by_cases hm : c2.ids w = true
      · have hl : AllocID.loop (n + 1) c sched = AllocID.loop n c2 sched.tail := by
          simp only [AllocID.loop, hr, if_pos hm]
        rw [hl]
        exact ih c2 sched.tail h2.2
      · have hl : AllocID.loop (n + 1) c sched =
            .returned w { c2 with ids := fun k => if k = w then true else c2.ids k } := by
          simp only [AllocID.loop, hr, if_neg hm]
        rw [hl]
        constructor
        · intro v c1 h
          simp only [blocking.returned.injEq] at h
          obtain ⟨rfl, rfl⟩ := h
          exact h2
        · intro c1 h; cases h

/-- Sequences of calls that release only `uint16` values keep only such values waiting. -/
theorem run_waiting_lt (calls : List call) (c : client)
    (hw : ∀ w ∈ c.chanID.waiting, w < 65536)
    (hrel : ∀ j, call.release j ∈ calls → j < 65536) :
    ∀ w ∈ (run c calls).2.chanID.waiting, w < 65536 := by
  induction calls generalizing c with
  | nil => simpa [run_nil] using hw
  | cons k ks ih =>
    rw [run_cons]
    apply ih
    · cases k with
      | alloc sched =>
        have hl := AllocID_loop_lt (remaining c) c sched hw
        cases ha : AllocID c sched with
        | returned v c1 => simp only [step, ha]; exact (hl.1 v c1 ha).2
        | blocked c1 => simp only [step, ha]; exact hl.2 c1 ha
      | release j =>
        have hj : j < 65536 := hrel j (List.mem_cons_self _ _)
        intro w hmem
        simp only [step, ReleaseID, List.mem_append, List.mem_singleton] at hmem
        rcases hmem with hmem | rfl
        · exact hw w hmem
        · exact hj
    · intro j hj
      exact hrel j (List.mem_cons_of_mem _ hj)

/-- C2, as the code has it: the generator starts at `uint16(0)`, so the first id of a
fresh client, and the `ID` of the first `NewRequest`, is `0`. -/
theorem first_id_is_zero :
    (AllocID NewClient []).val? = some 0 ∧
    (NewRequest NewClient []).val?.map Request.ID = some 0 := by
  decide

/-- C2, amended: after any sequence of calls on a fresh client in which `ReleaseID` is
passed `uint16` values, every id returned by `AllocID`, and the `ID` of every request
made by `NewRequest`, lies in `0..65535`; the lower end `0` is reached by the first
call on a fresh client whatever the scheduler does. -/
theorem AllocID_id_range (calls : List call) (sched : List Nat)
    (hrel : ∀ j, call.release j ∈ calls → j < 65536) :
    (∀ reqID, (AllocID (run NewClient calls).2 sched).val? = some reqID → reqID ≤ 65535) ∧
    (∀ req, (NewRequest (run NewClient calls).2 sched).val? = some req → req.ID ≤ 65535) ∧
    (∀ s, (AllocID NewClient s).val? = some 0) := by
  have hw := run_waiting_lt calls NewClient (by simp [NewClient]) hrel
  have hl := AllocID_loop_lt (remaining (run NewClient calls).2) _ sched hw
  refine ⟨?_, ?_, ?_⟩
  · intro reqID h
    cases ha : AllocID (run NewClient calls).2 sched with
    | returned v c1 =>
      rw [ha] at h
      simp only [blocking.val?, Option.some.injEq] at h
      have := (hl.1 v c1 ha).1
      omega
    | blocked c1 => rw [ha] at h; simp [blocking.val?] at h
  · intro req h
    unfold NewRequest at h
    cases ha : AllocID (run NewClient calls).2 sched with
    | returned v c1 =>
      rw [ha] at h
      simp only [blocking.val?, Option.some.injEq] at h
      have := (hl.1 v c1 ha).1
      rw [← h]
      simp only
      omega
    | blocked c1 => rw [ha] at h; simp [blocking.val?] at h
  · intro s
    have hr : recv NewClient (s.headD 0) =
        some (0, { NewClient with chanID := { gen := 1, waiting := [] } }) := by
      simp [recv, offers, NewClient, genOffer, Nat.mod_one]
    rw [AllocID_unfold, hr]
    rfl

theorem AllocID_id_range_witness :
    (∀ j, call.release j ∈ [call.alloc [], .release 0, .release 65535, .alloc [2]] →
      j < 65536) ∧
    (AllocID (run NewClient [.alloc [], .release 0, .release 65535, .alloc [2]]).2 [1]).val?
      = some 0 ∧ 0 ≤ 65535 :=
  ⟨by simp, by decide,
    (AllocID_id_range [.alloc [], .release 0, .release 65535, .alloc [2]] [1]
      (by simp)).1 0 (by decide)⟩

theorem NewClient_eq : NewClient = allocatedUpTo 0 := by
  simp [NewClient, allocatedUpTo]

/-- With no release goroutine waiting, the receive can only take the generator's value. -/
theorem recv_allocatedUpTo (n pick : Nat) (h : n < 65536) :
    recv (allocatedUpTo n) pick =
      some (n, { allocatedUpTo n with chanID := { gen := n + 1, waiting := [] } }) := by
  simp [recv, offers, allocatedUpTo, genOffer_of_lt h, Nat.mod_one]

/-- With no release so far, the next `AllocID` returns the generator's next value. -/
theorem AllocID_allocatedUpTo (n : Nat) (sched : List Nat) (h : n < 65536) :
    AllocID (allocatedUpTo n) sched = .returned n (allocatedUpTo (n + 1)) := by
  rw [AllocID_unfold, recv_allocatedUpTo n _ h]
  have hn : (allocatedUpTo n).ids n = false := by simp [allocatedUpTo]
  simp only [hn, Bool.false_eq_true, if_false, blocking.returned.injEq, true_and]
  simp only [allocatedUpTo, client.mk.injEq, true_and]
  funext k
  by_cases hk : k = n
  · simp [hk]
  · have : (k < n + 1) = (k < n) := by
      apply propext; constructor <;> intro <;> omega
    simp [hk, this]

/-- Calls of `AllocID` alone, as long as the generator has values left, return the
consecutive values `n, n+1, ...`. -/
theorem run_allocs (scheds : List (List Nat)) (n : Nat) (h : n + scheds.length ≤ 65536) :
    run (allocatedUpTo n) (scheds.map call.alloc) =
      ((List.range' n scheds.length).map event.allocated,
        allocatedUpTo (n + scheds.length)) := by
  induction scheds generalizing n with
  | nil => simp [run_nil]
  | cons s ss ih =>
    simp only [List.length_cons] at h
    have hs : step (allocatedUpTo n) (call.alloc s) = (.allocated n, allocatedUpTo (n + 1)) := by
      simp only [step, AllocID_allocatedUpTo n s (by omega)]
    rw [List.map_cons, run_cons, hs]
    simp only
    rw [ih (n + 1) (by omega)]
    simp only [List.length_cons, List.range'_succ, List.map_cons]
    congr 2
    omega

theorem allocatedIds_map_allocated (l : List Nat) :
    allocatedIds (l.map event.allocated) = l := by
  induction l with
  | nil => rfl
  | cons a as ih => simp only [List.map_cons, allocatedIds, ih]

/-- With all `65536` values marked and nothing waiting, `AllocID` is parked at once. -/
theorem AllocID_exhausted (sched : List Nat) :
    AllocID (allocatedUpTo 65536) sched = .blocked (allocatedUpTo 65536) := by
  rw [AllocID_unfold]
  have hr : recv (allocatedUpTo 65536) (sched.headD 0) = none :=
    recv_eq_none.mpr (by simp [remaining, allocatedUpTo])
  rw [hr]

/-- After one `ReleaseID` on the exhausted client, `AllocID` returns the released id. -/
theorem AllocID_after_release (i : Nat) (sched : List Nat) :
    (AllocID (ReleaseID (allocatedUpTo 65536) i) sched).val? = some i := by
  have hg : genOffer 65536 = none := genOffer_none.mpr (le_refl _)
  have hr : recv (ReleaseID (allocatedUpTo 65536) i) (sched.headD 0) =
      some (i, { ReleaseID (allocatedUpTo 65536) i with
        chanID := { gen := 65536, waiting := [] } }) := by
    simp [recv, offers, ReleaseID, allocatedUpTo, hg, Nat.mod_one]
  rw [AllocID_unfold, hr]
  simp [ReleaseID, blocking.val?]

/-- C3: on a fresh client, `N ≤ 65535` calls of `AllocID` with no `ReleaseID` in between
all return, whatever the scheduler does: the events are the `N` allocations of
`0, 1, ..., N-1`, so `N` ids are returned and they are pairwise distinct. -/
theorem allocs_distinct (scheds : List (List Nat)) (h : scheds.length ≤ 65535) :
    (run NewClient (scheds.map call.alloc)).1
        = (List.range scheds.length).map event.allocated ∧
    (allocatedIds (run NewClient (scheds.map call.alloc)).1).length = scheds.length ∧
    (allocatedIds (run NewClient (scheds.map call.alloc)).1).Nodup := by
  have hrun := run_allocs scheds 0 (by omega)
  rw [← NewClient_eq] at hrun
  rw [hrun, List.range_eq_range']
  refine ⟨rfl, ?_, ?_⟩
  · rw [allocatedIds_map_allocated, List.length_range']
  · rw [allocatedIds_map_allocated]
    exact List.nodup_range' _ _

theorem allocs_distinct_witness :
    [[], [5], [1, 2]].length ≤ 65535 ∧
    allocatedIds (run NewClient ([[], [5], [1, 2]].map call.alloc)).1 = [0, 1, 2] ∧
    (allocatedIds (run NewClient ([[], [5], [1, 2]].map call.alloc)).1).Nodup :=
  ⟨by decide, by decide, (allocs_distinct [[], [5], [1, 2]] (by decide)).2.2⟩

/-- C4, as the code has it: on a fresh client, after `65535` calls of `AllocID` have
returned and nothing was released, the next `AllocID` is not parked: the generator still
holds `uint16(65535)` and the call returns it. -/
theorem AllocID_after_65535_returns :
    (allocatedIds (run NewClient ((List.replicate 65535 []).map call.alloc)).1).length = 65535 ∧
    (AllocID (run NewClient ((List.replicate 65535 []).map call.alloc)).2 []).isBlocked = false ∧
    (AllocID (run NewClient ((List.replicate 65535 []).map call.alloc)).2 []).val?
      = some 65535 := by
  have hrun := run_allocs (List.replicate 65535 []) 0
    (by rw [List.length_replicate]; omega)
  rw [← NewClient_eq, List.length_replicate] at hrun
  rw [hrun]
  simp only [allocatedIds_map_allocated, List.length_range', Nat.zero_add, true_and]
  rw [AllocID_allocatedUpTo 65535 [] (by omega)]
  exact ⟨rfl, rfl⟩

/-- C4, amended: on a fresh client, after exactly `65536` calls of `AllocID` have returned
and none of those ids has been released, the next `AllocID` is parked on the channel with
no candidate available; once any one of the outstanding ids is passed to `ReleaseID`, the
parked loop, resumed in the state it was parked in, returns an id, namely the released one. -/
theorem AllocID_blocks_after_65536 (scheds : List (List Nat)) (sched resumed : List Nat)
    (i : Nat) (h : scheds.length = 65536)
    (_hi : i ∈ allocatedIds (run NewClient (scheds.map call.alloc)).1) :
    (allocatedIds (run NewClient (scheds.map call.alloc)).1).length = 65536 ∧
    (AllocID (run NewClient (scheds.map call.alloc)).2 sched).isBlocked = true ∧
    offers (AllocID (run NewClient (scheds.map call.alloc)).2 sched).state = [] ∧
    (AllocID (ReleaseID (AllocID (run NewClient (scheds.map call.alloc)).2 sched).state i)
      resumed).val? = some i := by
  have hrun := run_allocs scheds 0 (by omega)
  rw [← NewClient_eq, h] at hrun
  rw [hrun]
  simp only [allocatedIds_map_allocated, List.length_range', Nat.zero_add, true_and]
  rw [AllocID_exhausted]
  refine ⟨rfl, ?_, AllocID_after_release i resumed⟩
  simp [offers, blocking.state, allocatedUpTo, genOffer_none.mpr (le_refl 65536)]

theorem AllocID_blocks_after_65536_witness :
    (List.replicate 65536 ([] : List Nat)).length = 65536 ∧
    42 ∈ allocatedIds (run NewClient ((List.replicate 65536 []).map call.alloc)).1 ∧
    (AllocID (run NewClient ((List.replicate 65536 []).map call.alloc)).2 []).isBlocked
      = true ∧
    (AllocID (ReleaseID
      (AllocID (run NewClient ((List.replicate 65536 []).map call.alloc)).2 []).state 42)
      [7]).val? = some 42 :=
  have hlen : (List.replicate 65536 ([] : List Nat)).length = 65536 := List.length_replicate _ _
  have hmem : 42 ∈ allocatedIds
      (run NewClient ((List.replicate 65536 []).map call.alloc)).1 := by
    have hrun := run_allocs (List.replicate 65536 []) 0 (by rw [hlen])
    rw [← NewClient_eq, hlen] at hrun
    rw [hrun, allocatedIds_map_allocated]
    exact List.mem_range'_1.mpr ⟨by omega, by omega⟩
  ⟨hlen, hmem,
    (AllocID_blocks_after_65536 (List.replicate 65536 []) [] [7] 42 hlen hmem).2.1,
    (AllocID_blocks_after_65536 (List.replicate 65536 []) [] [7] 42 hlen hmem).2.2.2⟩

/-! ## Lemmas on the request session -/

theorem outChunks_append (a b : List action) :
    outChunks (a ++ b) = outChunks a ++ outChunks b := by
  induction a with
  | nil => rfl
  | cons x xs ih => cases x <;> simp [outChunks, ih]

theorem errChunks_append (a b : List action) :
    errChunks (a ++ b) = errChunks a ++ errChunks b := by
  induction a with
  | nil => rfl
  | cons x xs ih => cases x <;> simp [errChunks, ih]

theorem readsDone_append (a b : List action) :
    readsDone (a ++ b) = readsDone a ++ readsDone b := by
  induction a with
  | nil => rfl
  | cons x xs ih => cases x <;> simp [readsDone, ih]

theorem released_append (a b : List action) :
    released (a ++ b) = released a ++ released b := by
  induction a with
  | nil => rfl
  | cons x xs ih => cases x <;> simp [released, ih]

theorem connWrites_append (a b : List action) :
    connWrites (a ++ b) = connWrites a ++ connWrites b := by
  induction a with
  | nil => rfl
  | cons x xs ih => cases x <;> simp [connWrites, ih]

theorem readLoop_nil (K : consts) (wOut wErr : Writer) (tr : List action) :
    Handle.readLoop K wOut wErr [] tr = (.starved, tr, []) := rfl

theorem readLoop_failed (K : consts) (wOut wErr : Writer) (e : Nat)
    (rest : List readResult) (tr : List action) :
    Handle.readLoop K wOut wErr (.failed e :: rest) tr =
      (.readFailed e, tr ++ [.read (.failed e)], rest) := rfl

theorem readLoop_stdout (K : consts) (wOut wErr : Writer) (r : record)
    (rest : List readResult) (tr : List action) (h : r.h.type = K.typeStdout) :
    Handle.readLoop K wOut wErr (.got r :: rest) tr =
      Handle.readLoop K wOut wErr rest
        (tr ++ [.read (.got r), .out r.content (wOut (outChunks tr) r.content)]) := by
  simp only [Handle.readLoop, if_pos h]

theorem readLoop_stderr (K : consts) (wOut wErr : Writer) (r : record)
    (rest : List readResult) (tr : List action) (h : r.h.type = K.typeStderr) :
    Handle.readLoop K wOut wErr (.got r :: rest) tr =
      Handle.readLoop K wOut wErr rest
        (tr ++ [.read (.got r), .err r.content (wErr (errChunks tr) r.content)]) := by
  have h1 : ¬ r.h.type = K.typeStdout := fun e => K.stdout_ne_stderr (e.symm.trans h)
  simp only [Handle.readLoop, if_neg h1, if_pos h]

theorem readLoop_endRequest (K : consts) (wOut wErr : Writer) (r : record)
    (rest : List readResult) (tr : List action) (h : r.h.type = K.typeEndRequest) :
    Handle.readLoop K wOut wErr (.got r :: rest) tr =
      (.endRequest, tr ++ [.read (.got r)], rest) := by
  have h1 : ¬ r.h.type = K.typeStdout := fun e => K.stdout_ne_end (e.symm.trans h)
  have h2 : ¬ r.h.type = K.typeStderr := fun e => K.stderr_ne_end (e.symm.trans h)
  simp only [Handle.readLoop, if_neg h1, if_neg h2, if_pos h]

theorem readLoop_unexpected (K : consts) (wOut wErr : Writer) (r : record)
    (rest : List readResult) (tr : List action) (h1 : r.h.type ≠ K.typeStdout)
    (h2 : r.h.type ≠ K.typeStderr) (h3 : r.h.type ≠ K.typeEndRequest) :
    Handle.readLoop K wOut wErr (.got r :: rest) tr =
      (.unexpected r.h.type, tr ++ [.read (.got r)], rest) := by
  simp only [Handle.readLoop, if_neg h1, if_neg h2, if_neg h3]

/-- The loop over a run of Stdout and Stderr records: it consumes all of them, hands
each content to its sink in order, and does nothing else. -/
theorem readLoop_stream (K : consts) (wOut wErr : Writer) (pre tail : List readResult)
    (tr : List action) (hpre : ∀ x ∈ pre, isStream K x = true) :
    ∃ mid, Handle.readLoop K wOut wErr (pre ++ tail) tr =
        Handle.readLoop K wOut wErr tail (tr ++ mid) ∧
      outChunks mid = contentsOf K.typeStdout pre ∧
      errChunks mid = contentsOf K.typeStderr pre ∧
      readsDone mid = pre ∧ released mid = [] ∧ connWrites mid = [] := by
  induction pre generalizing tr with
  | nil => exact ⟨[], by simp, rfl, rfl, rfl, rfl, rfl⟩
  | cons x xs ih =>
    have hx := hpre x (List.mem_cons_self _ _)
    have hxs : ∀ y ∈ xs, isStream K y = true := fun y hy => hpre y (List.mem_cons_of_mem _ hy)
    cases x with
    | failed e => simp [isStream] at hx
    | got r =>
      simp only [isStream, Bool.or_eq_true, decide_eq_true_eq] at hx
      rcases hx with h | h
      · obtain ⟨mid, hm, ho, he, hr, hrel, hw⟩ := ih
          (tr ++ [.read (.got r), .out r.content (wOut (outChunks tr) r.content)]) hxs
        refine ⟨.read (.got r) :: .out r.content (wOut (outChunks tr) r.content) :: mid,
          ?_, ?_, ?_, ?_, ?_, ?_⟩
        · rw [List.cons_append, readLoop_stdout K wOut wErr r _ tr h, hm, List.append_assoc]
          rfl
        · simp only [List.cons_append, List.nil_append, outChunks, contentsOf, if_pos h, ho]
        · have h1 : ¬ r.h.type = K.typeStderr := fun e => K.stdout_ne_stderr (h.symm.trans e)
          simp only [List.cons_append, List.nil_append, errChunks, contentsOf, if_neg h1, he]
        · simp only [List.cons_append, List.nil_append, readsDone, hr]
        · simp only [List.cons_append, List.nil_append, released, hrel]
        · simp only [List.cons_append, List.nil_append, connWrites, hw]
      · obtain ⟨mid, hm, ho, he, hr, hrel, hw⟩ := ih
          (tr ++ [.read (.got r), .err r.content (wErr (errChunks tr) r.content)]) hxs
        refine ⟨.read (.got r) :: .err r.content (wErr (errChunks tr) r.content) :: mid,
          ?_, ?_, ?_, ?_, ?_, ?_⟩
        · rw [List.cons_append, readLoop_stderr K wOut wErr r _ tr h, hm, List.append_assoc]
          rfl
        · have h1 : ¬ r.h.type = K.typeStdout := fun e => K.stdout_ne_stderr (e.symm.trans h)
          simp only [List.cons_append, List.nil_append, outChunks, contentsOf, if_neg h1, ho]
        · simp only [List.cons_append, List.nil_append, errChunks, contentsOf, if_pos h, he]
        · simp only [List.cons_append, List.nil_append, readsDone, hr]
        · simp only [List.cons_append, List.nil_append, released, hrel]
        · simp only [List.cons_append, List.nil_append, connWrites, hw]

/-- The loop releases nothing and writes nothing on the connection, whatever it reads. -/
theorem readLoop_quiet (K : consts) (wOut wErr : Writer) (rs : List readResult)
    (tr : List action) :
    released (Handle.readLoop K wOut wErr rs tr).2.1 = released tr ∧
    connWrites (Handle.readLoop K wOut wErr rs tr).2.1 = connWrites tr := by
  induction rs generalizing tr with
  | nil => exact ⟨rfl, rfl⟩
  | cons x xs ih =>
    cases x with
    | failed e =>
      rw [readLoop_failed]
      simp [released_append, connWrites_append, released, connWrites]
    | got r =>
      by_cases h1 : r.h.type = K.typeStdout
      · rw [readLoop_stdout K wOut wErr r xs tr h1]
        have := ih (tr ++ [.read (.got r), .out r.content (wOut (outChunks tr) r.content)])
        simpa [released_append, connWrites_append, released, connWrites] using this
      · by_cases h2 : r.h.type = K.typeStderr
        · rw [readLoop_stderr K wOut wErr r xs tr h2]
          have := ih (tr ++ [.read (.got r), .err r.content (wErr (errChunks tr) r.content)])
          simpa [released_append, connWrites_append, released, connWrites] using this
        · by_cases h3 : r.h.type = K.typeEndRequest
          · rw [readLoop_endRequest K wOut wErr r xs tr h3]
            simp [released_append, connWrites_append, released, connWrites]
          · rw [readLoop_unexpected K wOut wErr r xs tr h1 h2 h3]
            simp [released_append, connWrites_append, released, connWrites]

/-- The loop is starved exactly when every read result is a Stdout or Stderr record. -/
theorem readLoop_starved_iff (K : consts) (wOut wErr : Writer) (rs : List readResult)
    (tr : List action) :
    (Handle.readLoop K wOut wErr rs tr).1 = .starved ↔ ∀ x ∈ rs, isStream K x = true := by
  induction rs generalizing tr with
  | nil => simp [readLoop_nil]
  | cons x xs ih =>
    cases x with
    | failed e => simp [readLoop_failed, isStream]
    | got r =>
      by_cases h1 : r.h.type = K.typeStdout
      · rw [readLoop_stdout K wOut wErr r xs tr h1, ih]
        simp [isStream, h1]
      · by_cases h2 : r.h.type = K.typeStderr
        · rw [readLoop_stderr K wOut wErr r xs tr h2, ih]
          simp [isStream, h2]
        · by_cases h3 : r.h.type = K.typeEndRequest
          · rw [readLoop_endRequest K wOut wErr r xs tr h3]
            simp [isStream, h1, h2]
          · rw [readLoop_unexpected K wOut wErr r xs tr h1 h2 h3]
            simp [isStream, h1, h2]

theorem reading_trace (K : consts) (cn : conn) (wOut wErr : Writer) (err : Option Nat)
    (tr : List action) :
    (Handle.reading K cn wOut wErr err tr).2 = (Handle.readLoop K wOut wErr cn.reads tr).2 := by
  unfold Handle.reading
  rcases h : Handle.readLoop K wOut wErr cn.reads tr with ⟨x, tr1, rest⟩
  cases x <;> rfl

theorem reading_blocked_iff (K : consts) (cn : conn) (wOut wErr : Writer) (err : Option Nat)
    (tr : List action) :
    (Handle.reading K cn wOut wErr err tr).1 = .blocked ↔
      (Handle.readLoop K wOut wErr cn.reads tr).1 = .starved := by
  unfold Handle.reading
  rcases h : Handle.readLoop K wOut wErr cn.reads tr with ⟨x, tr1, rest⟩
  cases x <;> simp

theorem body_begin_fails (K : consts) (cn : conn) (wOut wErr : Writer) (req : Request)
    (e : Nat) (h : cn.writeBeginRequest req.GetID K.roleResponder 0 = some e) :
    Handle.body K cn wOut wErr req =
      (.returned (some e), [.beginRequest req.GetID K.roleResponder 0 (some e)], cn.reads) := by
  simp [Handle.body, h]

theorem body_pairs_fails (K : consts) (cn : conn) (wOut wErr : Writer) (req : Request)
    (e : Nat) (hb : cn.writeBeginRequest req.GetID K.roleResponder 0 = none)
    (h : cn.writePairs K.typeParams req.GetID req.Params = some e) :
    Handle.body K cn wOut wErr req =
      (.returned (some e), [.beginRequest req.GetID K.roleResponder 0 none,
        .pairs K.typeParams req.GetID req.Params (some e)], cn.reads) := by
  simp [Handle.body, hb, h]

theorem body_stdin_fails (K : consts) (cn : conn) (wOut wErr : Writer) (req : Request)
    (e : Nat) (hb : cn.writeBeginRequest req.GetID K.roleResponder 0 = none)
    (hp : cn.writePairs K.typeParams req.GetID req.Params = none)
    (hc : req.Content.length > 0)
    (h : cn.writeRecord K.typeStdin req.GetID req.Content = some e) :
    Handle.body K cn wOut wErr req =
      (.returned (some e), [.beginRequest req.GetID K.roleResponder 0 none,
        .pairs K.typeParams req.GetID req.Params none,
        .record K.typeStdin req.GetID req.Content (some e)], cn.reads) := by
  simp only [Handle.body, hb, hp, h, ne_eq, not_true_eq_false, if_false, if_pos hc]
  simp

theorem body_writesOk (K : consts) (cn : conn) (wOut wErr : Writer) (req : Request)
    (h : writesOk K cn req) :
    Handle.body K cn wOut wErr req = Handle.reading K cn wOut wErr none (preamble K req) := by
  obtain ⟨hb, hp, hs⟩ := h
  by_cases hc : req.Content.length > 0
  · simp only [Handle.body, hb, hp, hs hc, ne_eq, not_true_eq_false, if_false, if_pos hc,
      preamble]
    simp
  · simp only [Handle.body, hb, hp, ne_eq, not_true_eq_false, if_false, if_neg hc, preamble]
    simp

/-- The ways the write steps can go. -/
theorem write_cases (K : consts) (cn : conn) (req : Request) :
    (∃ e, cn.writeBeginRequest req.GetID K.roleResponder 0 = some e) ∨
    (cn.writeBeginRequest req.GetID K.roleResponder 0 = none ∧
      ∃ e, cn.writePairs K.typeParams req.GetID req.Params = some e) ∨
    (cn.writeBeginRequest req.GetID K.roleResponder 0 = none ∧
      cn.writePairs K.typeParams req.GetID req.Params = none ∧
      req.Content.length > 0 ∧
      ∃ e, cn.writeRecord K.typeStdin req.GetID req.Content = some e) ∨
    writesOk K cn req := by
  cases hb : cn.writeBeginRequest req.GetID K.roleResponder 0 with
  | some e => exact Or.inl ⟨e, rfl⟩
  | none =>
    cases hp : cn.writePairs K.typeParams req.GetID req.Params with
    | some e => exact Or.inr (Or.inl ⟨rfl, e, rfl⟩)
    | none =>
      by_cases hc : req.Content.length > 0
      · cases hs : cn.writeRecord K.typeStdin req.GetID req.Content with
        | some e => exact Or.inr (Or.inr (Or.inl ⟨rfl, rfl, hc, e, rfl⟩))
        | none => exact Or.inr (Or.inr (Or.inr ⟨hb, hp, fun _ => hs⟩))
      · exact Or.inr (Or.inr (Or.inr ⟨hb, hp, fun h => absurd h hc⟩))

/-- When the body is left, `Handle` runs the deferred `ReleaseID` once, last. -/
theorem Handle_of_body (K : consts) (cn : conn) (wOut wErr : Writer) (c : client)
    (req : Request) (h : (Handle.body K cn wOut wErr req).1 ≠ .blocked) :
    Handle K cn wOut wErr c req =
      { exit := (Handle.body K cn wOut wErr req).1,
        trace := (Handle.body K cn wOut wErr req).2.1 ++ [.release req.GetID],
        unread := (Handle.body K cn wOut wErr req).2.2,
        c := ReleaseID c req.GetID } := by
  unfold Handle
  rcases hb : Handle.body K cn wOut wErr req with ⟨x, tr, rest⟩
  rw [hb] at h
  cases x with
  | blocked => exact absurd rfl h
  | returned e => rfl
  | panicked t => rfl

theorem Handle_of_body_blocked (K : consts) (cn : conn) (wOut wErr : Writer) (c : client)
    (req : Request) (h : (Handle.body K cn wOut wErr req).1 = .blocked) :
    Handle K cn wOut wErr c req =
      { exit := .blocked,
        trace := (Handle.body K cn wOut wErr req).2.1,
        unread := (Handle.body K cn wOut wErr req).2.2,
        c := c } := by
  unfold Handle
  rcases hb : Handle.body K cn wOut wErr req with ⟨x, tr, rest⟩
  rw [hb] at h
  simp only at h
  subst h
  rfl

theorem preamble_quiet (K : consts) (req : Request) :
    released (preamble K req) = [] ∧ outChunks (preamble K req) = [] ∧
    errChunks (preamble K req) = [] ∧ readsDone (preamble K req) = [] := by
  unfold preamble
  split_ifs <;> exact ⟨rfl, rfl, rfl, rfl⟩

/-- The body of `Handle` never calls `ReleaseID` itself. -/
theorem body_released (K : consts) (cn : conn) (wOut wErr : Writer) (req : Request) :
    released (Handle.body K cn wOut wErr req).2.1 = [] := by
  rcases write_cases K cn req with ⟨e, h⟩ | ⟨hb, e, h⟩ | ⟨hb, hp, hc, e, h⟩ | hok
  · rw [body_begin_fails K cn wOut wErr req e h]; rfl
  · rw [body_pairs_fails K cn wOut wErr req e hb h]; rfl
  · rw [body_stdin_fails K cn wOut wErr req e hb hp hc h]; rfl
  · rw [body_writesOk K cn wOut wErr req hok, reading_trace,
      (readLoop_quiet K wOut wErr cn.reads _).1]
    exact (preamble_quiet K req).1

/-- The body never finishes exactly when every write succeeds and every read result is
a Stdout or Stderr record. -/
theorem body_blocked_iff (K : consts) (cn : conn) (wOut wErr : Writer) (req : Request) :
    (Handle.body K cn wOut wErr req).1 = .blocked ↔
      writesOk K cn req ∧ ∀ x ∈ cn.reads, isStream K x = true := by
  rcases write_cases K cn req with ⟨e, h⟩ | ⟨hb, e, h⟩ | ⟨hb, hp, hc, e, h⟩ | hok
  · rw [body_begin_fails K cn wOut wErr req e h]
    simp [writesOk, h]
  · rw [body_pairs_fails K cn wOut wErr req e hb h]
    simp [writesOk, h]
  · rw [body_stdin_fails K cn wOut wErr req e hb hp hc h]
    simp only [reduceCtorEq, false_iff, not_and]
    intro hok
    have := hok.2.2 hc
    rw [h] at this
    cases this
  · rw [body_writesOk K cn wOut wErr req hok, reading_blocked_iff, readLoop_starved_iff]
    simp [hok]

/-! ## Claims on the request session -/

/-- C5: on every path that leaves `Handle` (a failed BeginRequest, Params or Stdin write,
or a read result that is not a Stdout or Stderr record: a failed read, an EndRequest, an
unexpected type) the call finishes, `ReleaseID(req.ID)` is called exactly once and is
the last action, and afterwards `req.ID` is not marked in-use and has been handed to the
candidate stream once. -/
theorem Handle_releases_once (K : consts) (cn : conn) (wOut wErr : Writer) (c : client)
    (req : Request)
    (h : ¬ writesOk K cn req ∨ ∃ x ∈ cn.reads, isStream K x = false) :
    (Handle K cn wOut wErr c req).exit ≠ .blocked ∧
    released (Handle K cn wOut wErr c req).trace = [req.ID] ∧
    (Handle K cn wOut wErr c req).trace.getLast? = some (.release req.ID) ∧
    (Handle K cn wOut wErr c req).c = ReleaseID c req.ID ∧
    (Handle K cn wOut wErr c req).c.ids req.ID = false ∧
    (Handle K cn wOut wErr c req).c.chanID.waiting = c.chanID.waiting ++ [req.ID] := by
  have hnb : (Handle.body K cn wOut wErr req).1 ≠ .blocked := by
    rw [Ne, body_blocked_iff]
    rintro ⟨hok, hall⟩
    rcases h with h | ⟨x, hx, hs⟩
    · exact h hok
    · rw [hall x hx] at hs
      cases hs
  rw [Handle_of_body K cn wOut wErr c req hnb]
  refine ⟨hnb, ?_, ?_, rfl, ?_, rfl⟩
  · simp only [released_append, body_released, List.nil_append]
    rfl
  · rw [List.getLast?_append, List.getLast?_singleton]
    rfl
  · simp [ReleaseID, Request.GetID]

theorem Handle_releases_once_witness :
    (¬ writesOk fcgi (beginFailConn 9 []) ⟨1, [], []⟩ ∨
      ∃ x ∈ (beginFailConn 9 []).reads, isStream fcgi x = false) ∧
    released (Handle fcgi (beginFailConn 9 []) okWriter okWriter
      (run NewClient [.alloc [], .alloc []]).2 ⟨1, [], []⟩).trace = [1] ∧
    (Handle fcgi (beginFailConn 9 []) okWriter okWriter
      (run NewClient [.alloc [], .alloc []]).2 ⟨1, [], []⟩).c.ids 1 = false :=
  ⟨Or.inl (by decide),
    (Handle_releases_once fcgi (beginFailConn 9 []) okWriter okWriter
      (run NewClient [.alloc [], .alloc []]).2 ⟨1, [], []⟩ (Or.inl (by decide))).2.1,
    (Handle_releases_once fcgi (beginFailConn 9 []) okWriter okWriter
      (run NewClient [.alloc [], .alloc []]).2 ⟨1, [], []⟩ (Or.inl (by decide))).2.2.2.2.1⟩

/-- C6: if the BeginRequest write fails, `Handle` returns exactly that error, having
issued that one write and no read; if the Params write fails, it returns that error after
those two writes and no read; if the Stdin write (made when the content is non-empty)
fails, it returns that error after those three writes and no read. -/
theorem Handle_write_error (K : consts) (cn : conn) (wOut wErr : Writer) (c : client)
    (req : Request) (e : Nat) :
    (cn.writeBeginRequest req.ID K.roleResponder 0 = some e →
      (Handle K cn wOut wErr c req).exit = .returned (some e) ∧
      connWrites (Handle K cn wOut wErr c req).trace =
        [.beginRequest req.ID K.roleResponder 0 (some e)] ∧
      readsDone (Handle K cn wOut wErr c req).trace = [] ∧
      (Handle K cn wOut wErr c req).unread = cn.reads) ∧
    (cn.writeBeginRequest req.ID K.roleResponder 0 = none →
      cn.writePairs K.typeParams req.ID req.Params = some e →
      (Handle K cn wOut wErr c req).exit = .returned (some e) ∧
      connWrites (Handle K cn wOut wErr c req).trace =
        [.beginRequest req.ID K.roleResponder 0 none,
          .pairs K.typeParams req.ID req.Params (some e)] ∧
      readsDone (Handle K cn wOut wErr c req).trace = [] ∧
      (Handle K cn wOut wErr c req).unread = cn.reads) ∧
    (cn.writeBeginRequest req.ID K.roleResponder 0 = none →
      cn.writePairs K.typeParams req.ID req.Params = none →
      req.Content ≠ [] →
      cn.writeRecord K.typeStdin req.ID req.Content = some e →
      (Handle K cn wOut wErr c req).exit = .returned (some e) ∧
      connWrites (Handle K cn wOut wErr c req).trace =
        [.beginRequest req.ID K.roleResponder 0 none,
          .pairs K.typeParams req.ID req.Params none,
          .record K.typeStdin req.ID req.Content (some e)] ∧
      readsDone (Handle K cn wOut wErr c req).trace = [] ∧
      (Handle K cn wOut wErr c req).unread = cn.reads) := by
  refine ⟨?_, ?_, ?_⟩
  · intro h
    have hb := body_begin_fails K cn wOut wErr req e h
    rw [Handle_of_body K cn wOut wErr c req (by rw [hb]; simp), hb]
    exact ⟨rfl, rfl, rfl, rfl⟩
  · intro h0 h
    have hb := body_pairs_fails K cn wOut wErr req e h0 h
    rw [Handle_of_body K cn wOut wErr c req (by rw [hb]; simp), hb]
    exact ⟨rfl, rfl, rfl, rfl⟩
  · intro h0 h1 hc h
    have hc1 : req.Content.length > 0 := List.length_pos.mpr hc
    have hb := body_stdin_fails K cn wOut wErr req e h0 h1 hc1 h
    rw [Handle_of_body K cn wOut wErr c req (by rw [hb]; simp), hb]
    exact ⟨rfl, rfl, rfl, rfl⟩

theorem Handle_write_error_witness :
    ((beginFailConn 9 [.got ⟨⟨3, 1⟩, []⟩]).writeBeginRequest 1 fcgi.roleResponder 0 = some 9 ∧
      (Handle fcgi (beginFailConn 9 [.got ⟨⟨3, 1⟩, []⟩]) okWriter okWriter NewClient
        ⟨1, [("A", "b")], [120]⟩).exit = .returned (some 9)) ∧
    ((pairsFailConn 8 [.got ⟨⟨3, 1⟩, []⟩]).writePairs fcgi.typeParams 1 [("A", "b")] = some 8 ∧
      (Handle fcgi (pairsFailConn 8 [.got ⟨⟨3, 1⟩, []⟩]) okWriter okWriter NewClient
        ⟨1, [("A", "b")], [120]⟩).exit = .returned (some 8)) ∧
    ((stdinFailConn 7 [.got ⟨⟨3, 1⟩, []⟩]).writeRecord fcgi.typeStdin 1 [120] = some 7 ∧
      (Handle fcgi (stdinFailConn 7 [.got ⟨⟨3, 1⟩, []⟩]) okWriter okWriter NewClient
        ⟨1, [("A", "b")], [120]⟩).unread = [.got ⟨⟨3, 1⟩, []⟩]) :=
  ⟨⟨rfl, ((Handle_write_error fcgi (beginFailConn 9 [.got ⟨⟨3, 1⟩, []⟩]) okWriter okWriter
      NewClient ⟨1, [("A", "b")], [120]⟩ 9).1 rfl).1⟩,
    ⟨rfl, ((Handle_write_error fcgi (pairsFailConn 8 [.got ⟨⟨3, 1⟩, []⟩]) okWriter okWriter
      NewClient ⟨1, [("A", "b")], [120]⟩ 8).2.1 rfl rfl).1⟩,
    ⟨rfl, ((Handle_write_error fcgi (stdinFailConn 7 [.got ⟨⟨3, 1⟩, []⟩]) okWriter okWriter
      NewClient ⟨1, [("A", "b")], [120]⟩ 7).2.2 rfl rfl (by decide) rfl).2.2.2⟩⟩

/-- With all writes done, `Handle` on read results that start with Stdout and Stderr
records `pre`: the loop consumes them and goes on with what follows. -/
theorem body_stream (K : consts) (cn : conn) (wOut wErr : Writer) (req : Request)
    (pre tail : List readResult) (hok : writesOk K cn req) (hreads : cn.reads = pre ++ tail)
    (hpre : ∀ x ∈ pre, isStream K x = true) :
    ∃ tr, Handle.body K cn wOut wErr req =
        Handle.reading K { cn with reads := tail } wOut wErr none tr ∧
      outChunks tr = contentsOf K.typeStdout pre ∧
      errChunks tr = contentsOf K.typeStderr pre ∧
      readsDone tr = pre ∧ released tr = [] := by
  obtain ⟨mid, hm, ho, he, hr, hrel, _⟩ :=
    readLoop_stream K wOut wErr pre tail (preamble K req) hpre
  obtain ⟨q1, q2, q3, q4⟩ := preamble_quiet K req
  refine ⟨preamble K req ++ mid, ?_, ?_, ?_, ?_, ?_⟩
  · rw [body_writesOk K cn wOut wErr req hok]
    unfold Handle.reading
    rw [hreads, hm]
  · rw [outChunks_append, q2, ho, List.nil_append]
  · rw [errChunks_append, q3, he, List.nil_append]
  · rw [readsDone_append, q4, hr, List.nil_append]
  · rw [released_append, q1, hrel, List.nil_append]

/-- C7, as the code has it: every write succeeds and the first read fails with error `5`;
the loop ends at that read, and `Handle` returns `nil`, not the read error. -/
theorem Handle_read_error_dropped :
    writesOk fcgi (okConn [.failed 5]) ⟨1, [], []⟩ ∧
    readsDone (Handle fcgi (okConn [.failed 5]) okWriter okWriter NewClient
      ⟨1, [], []⟩).trace = [.failed 5] ∧
    (Handle fcgi (okConn [.failed 5]) okWriter okWriter NewClient ⟨1, [], []⟩).exit
      = .returned none := by
  decide

/-- C8: if all writes succeed and the connection yields Stdout and Stderr records `pre`
followed by an EndRequest record (so the first EndRequest is the record number
`pre.length + 1`), then `Handle` returns no error, `wOut` is handed exactly the contents
of the Stdout records of `pre` in order, `wErr` exactly those of the Stderr records, and
exactly `pre.length + 1` records are read: whatever follows the EndRequest stays unread. -/
theorem Handle_end_request (K : consts) (cn : conn) (wOut wErr : Writer) (c : client)
    (req : Request) (pre rest : List readResult) (r : record)
    (hok : writesOk K cn req) (hreads : cn.reads = pre ++ .got r :: rest)
    (hpre : ∀ x ∈ pre, isStream K x = true) (hr : r.h.type = K.typeEndRequest) :
    (Handle K cn wOut wErr c req).exit = .returned none ∧
    outChunks (Handle K cn wOut wErr c req).trace = contentsOf K.typeStdout pre ∧
    errChunks (Handle K cn wOut wErr c req).trace = contentsOf K.typeStderr pre ∧
    readsDone (Handle K cn wOut wErr c req).trace = pre ++ [.got r] ∧
    (readsDone (Handle K cn wOut wErr c req).trace).length = pre.length + 1 ∧
    (Handle K cn wOut wErr c req).unread = rest := by
  obtain ⟨tr, hb, ho, he, hrd, hrel⟩ :=
    body_stream K cn wOut wErr req pre (.got r :: rest) hok hreads hpre
  have hb2 : Handle.body K cn wOut wErr req =
      (.returned none, tr ++ [.read (.got r)], rest) := by
    rw [hb]
    simp only [Handle.reading, readLoop_endRequest K wOut wErr r rest tr hr]
  rw [Handle_of_body K cn wOut wErr c req (by rw [hb2]; simp), hb2]
  simp only [outChunks_append, errChunks_append, readsDone_append, ho, he, hrd, outChunks,
    errChunks, readsDone, List.append_nil, List.length_append, List.length_singleton,
    and_self]

theorem Handle_end_request_witness :
    writesOk fcgi (okConn [.got ⟨⟨6, 1⟩, [104, 101, 108, 108, 111]⟩,
      .got ⟨⟨7, 1⟩, [111, 111, 112, 115]⟩, .got ⟨⟨3, 1⟩, []⟩]) ⟨1, [], []⟩ ∧
    (Handle fcgi (okConn [.got ⟨⟨6, 1⟩, [104, 101, 108, 108, 111]⟩,
      .got ⟨⟨7, 1⟩, [111, 111, 112, 115]⟩, .got ⟨⟨3, 1⟩, []⟩]) okWriter okWriter NewClient
      ⟨1, [], []⟩).exit = .returned none ∧
    outChunks (Handle fcgi (okConn [.got ⟨⟨6, 1⟩, [104, 101, 108, 108, 111]⟩,
      .got ⟨⟨7, 1⟩, [111, 111, 112, 115]⟩, .got ⟨⟨3, 1⟩, []⟩]) okWriter okWriter NewClient
      ⟨1, [], []⟩).trace = [[104, 101, 108, 108, 111]] ∧
    errChunks (Handle fcgi (okConn [.got ⟨⟨6, 1⟩, [104, 101, 108, 108, 111]⟩,
      .got ⟨⟨7, 1⟩, [111, 111, 112, 115]⟩, .got ⟨⟨3, 1⟩, []⟩]) okWriter okWriter NewClient
      ⟨1, [], []⟩).trace = [[111, 111, 112, 115]] :=
  ⟨by decide,
    (Handle_end_request fcgi (okConn [.got ⟨⟨6, 1⟩, [104, 101, 108, 108, 111]⟩,
      .got ⟨⟨7, 1⟩, [111, 111, 112, 115]⟩, .got ⟨⟨3, 1⟩, []⟩]) okWriter okWriter NewClient
      ⟨1, [], []⟩ [.got ⟨⟨6, 1⟩, [104, 101, 108, 108, 111]⟩,
      .got ⟨⟨7, 1⟩, [111, 111, 112, 115]⟩] [] ⟨⟨3, 1⟩, []⟩ (by decide) rfl (by decide) rfl).1,
    (Handle_end_request fcgi (okConn [.got ⟨⟨6, 1⟩, [104, 101, 108, 108, 111]⟩,
      .got ⟨⟨7, 1⟩, [111, 111, 112, 115]⟩, .got ⟨⟨3, 1⟩, []⟩]) okWriter okWriter NewClient
      ⟨1, [], []⟩ [.got ⟨⟨6, 1⟩, [104, 101, 108, 108, 111]⟩,
      .got ⟨⟨7, 1⟩, [111, 111, 112, 115]⟩] [] ⟨⟨3, 1⟩, []⟩ (by decide) rfl (by decide)
      rfl).2.1,
    (Handle_end_request fcgi (okConn [.got ⟨⟨6, 1⟩, [104, 101, 108, 108, 111]⟩,
      .got ⟨⟨7, 1⟩, [111, 111, 112, 115]⟩, .got ⟨⟨3, 1⟩, []⟩]) okWriter okWriter NewClient
      ⟨1, [], []⟩ [.got ⟨⟨6, 1⟩, [104, 101, 108, 108, 111]⟩,
      .got ⟨⟨7, 1⟩, [111, 111, 112, 115]⟩] [] ⟨⟨3, 1⟩, []⟩ (by decide) rfl (by decide)
      rfl).2.2.1⟩

/-- C9: if all writes succeed and, after Stdout and Stderr records `pre`, a record is read
whose type is none of Stdout, Stderr, EndRequest, then `Handle` panics at that record: it
does not return, what follows the record stays unread, after reading it the only action
is the deferred release, and the sinks have been handed exactly the contents of the
Stdout and Stderr records of `pre`. -/
theorem Handle_unexpected_type (K : consts) (cn : conn) (wOut wErr : Writer) (c : client)
    (req : Request) (pre rest : List readResult) (r : record)
    (hok : writesOk K cn req) (hreads : cn.reads = pre ++ .got r :: rest)
    (hpre : ∀ x ∈ pre, isStream K x = true)
    (h1 : r.h.type ≠ K.typeStdout) (h2 : r.h.type ≠ K.typeStderr)
    (h3 : r.h.type ≠ K.typeEndRequest) :
    (Handle K cn wOut wErr c req).exit = .panicked r.h.type ∧
    (Handle K cn wOut wErr c req).unread = rest ∧
    readsDone (Handle K cn wOut wErr c req).trace = pre ++ [.got r] ∧
    (∃ before, (Handle K cn wOut wErr c req).trace =
      before ++ [.read (.got r), .release req.ID]) ∧
    outChunks (Handle K cn wOut wErr c req).trace = contentsOf K.typeStdout pre ∧
    errChunks (Handle K cn wOut wErr c req).trace = contentsOf K.typeStderr pre := by
  obtain ⟨tr, hb, ho, he, hrd, hrel⟩ :=
    body_stream K cn wOut wErr req pre (.got r :: rest) hok hreads hpre
  have hb2 : Handle.body K cn wOut wErr req =
      (.panicked r.h.type, tr ++ [.read (.got r)], rest) := by
    rw [hb]
    simp only [Handle.reading, readLoop_unexpected K wOut wErr r rest tr h1 h2 h3]
  rw [Handle_of_body K cn wOut wErr c req (by rw [hb2]; simp), hb2]
  refine ⟨rfl, rfl, ?_, ⟨tr, ?_⟩, ?_, ?_⟩
  · simp only [readsDone_append, hrd, readsDone, List.append_nil]
  · simp only [List.append_assoc, List.singleton_append, Request.GetID]
  · simp only [outChunks_append, ho, outChunks, List.append_nil]
  · simp only [errChunks_append, he, errChunks, List.append_nil]

theorem Handle_unexpected_type_witness :
    writesOk fcgi (okConn [.got ⟨⟨6, 1⟩, [104]⟩, .got ⟨⟨9, 0⟩, []⟩, .got ⟨⟨6, 1⟩, [105]⟩])
      ⟨1, [], []⟩ ∧
    (Handle fcgi (okConn [.got ⟨⟨6, 1⟩, [104]⟩, .got ⟨⟨9, 0⟩, []⟩, .got ⟨⟨6, 1⟩, [105]⟩])
      okWriter okWriter NewClient ⟨1, [], []⟩).exit = .panicked 9 ∧
    (Handle fcgi (okConn [.got ⟨⟨6, 1⟩, [104]⟩, .got ⟨⟨9, 0⟩, []⟩, .got ⟨⟨6, 1⟩, [105]⟩])
      okWriter okWriter NewClient ⟨1, [], []⟩).unread = [.got ⟨⟨6, 1⟩, [105]⟩] ∧
    outChunks (Handle fcgi
      (okConn [.got ⟨⟨6, 1⟩, [104]⟩, .got ⟨⟨9, 0⟩, []⟩, .got ⟨⟨6, 1⟩, [105]⟩])
      okWriter okWriter NewClient ⟨1, [], []⟩).trace = [[104]] :=
  ⟨by decide,
    (Handle_unexpected_type fcgi
      (okConn [.got ⟨⟨6, 1⟩, [104]⟩, .got ⟨⟨9, 0⟩, []⟩, .got ⟨⟨6, 1⟩, [105]⟩])
      okWriter okWriter NewClient ⟨1, [], []⟩ [.got ⟨⟨6, 1⟩, [104]⟩] [.got ⟨⟨6, 1⟩, [105]⟩]
      ⟨⟨9, 0⟩, []⟩ (by decide) rfl (by decide) (by decide) (by decide) (by decide)).1,
    (Handle_unexpected_type fcgi
      (okConn [.got ⟨⟨6, 1⟩, [104]⟩, .got ⟨⟨9, 0⟩, []⟩, .got ⟨⟨6, 1⟩, [105]⟩])
      okWriter okWriter NewClient ⟨1, [], []⟩ [.got ⟨⟨6, 1⟩, [104]⟩] [.got ⟨⟨6, 1⟩, [105]⟩]
      ⟨⟨9, 0⟩, []⟩ (by decide) rfl (by decide) (by decide) (by decide) (by decide)).2.1,
    (Handle_unexpected_type fcgi
      (okConn [.got ⟨⟨6, 1⟩, [104]⟩, .got ⟨⟨9, 0⟩, []⟩, .got ⟨⟨6, 1⟩, [105]⟩])
      okWriter okWriter NewClient ⟨1, [], []⟩ [.got ⟨⟨6, 1⟩, [104]⟩] [.got ⟨⟨6, 1⟩, [105]⟩]
      ⟨⟨9, 0⟩, []⟩ (by decide) rfl (by decide) (by decide) (by decide)
      (by decide)).2.2.2.2.1⟩

theorem outChunks_reId (f : record → Nat) (tr : List action) :
    outChunks (tr.map (reIdAction f)) = outChunks tr := by
  induction tr with
  | nil => rfl
  | cons a as ih => cases a <;> simp [reIdAction, outChunks, ih]

theorem errChunks_reId (f : record → Nat) (tr : List action) :
    errChunks (tr.map (reIdAction f)) = errChunks tr := by
  induction tr with
  | nil => rfl
  | cons a as ih => cases a <;> simp [reIdAction, errChunks, ih]

theorem readsDone_reId (f : record → Nat) (tr : List action) :
    readsDone (tr.map (reIdAction f)) = (readsDone tr).map (reId f) := by
  induction tr with
  | nil => rfl
  | cons a as ih => cases a <;> simp [reIdAction, readsDone, ih]

/-- The loop on relabelled records does the same as on the original ones, up to the
relabelling of what it reads. -/
theorem readLoop_reId (K : consts) (wOut wErr : Writer) (f : record → Nat)
    (rs : List readResult) (tr : List action) :
    Handle.readLoop K wOut wErr (rs.map (reId f)) (tr.map (reIdAction f)) =
      ((Handle.readLoop K wOut wErr rs tr).1,
        (Handle.readLoop K wOut wErr rs tr).2.1.map (reIdAction f),
        (Handle.readLoop K wOut wErr rs tr).2.2.map (reId f)) := by
  induction rs generalizing tr with
  | nil => rfl
  | cons x xs ih =>
    cases x with
    | failed e =>
      simp only [List.map_cons, reId, readLoop_failed, List.map_append, List.map_nil,
        reIdAction]
    | got r =>
      simp only [List.map_cons, reId]
      by_cases h1 : r.h.type = K.typeStdout
      · rw [readLoop_stdout K wOut wErr r xs tr h1,
          readLoop_stdout K wOut wErr ⟨⟨r.h.type, f r⟩, r.content⟩ _ _ h1, ← ih]
        simp only [List.map_append, List.map_cons, List.map_nil, reIdAction, reId,
          outChunks_reId]
      · by_cases h2 : r.h.type = K.typeStderr
        · rw [readLoop_stderr K wOut wErr r xs tr h2,
            readLoop_stderr K wOut wErr ⟨⟨r.h.type, f r⟩, r.content⟩ _ _ h2, ← ih]
          simp only [List.map_append, List.map_cons, List.map_nil, reIdAction, reId,
            errChunks_reId]
        · by_cases h3 : r.h.type = K.typeEndRequest
          · rw [readLoop_endRequest K wOut wErr r xs tr h3,
              readLoop_endRequest K wOut wErr ⟨⟨r.h.type, f r⟩, r.content⟩ _ _ h3]
            simp only [List.map_append, List.map_cons, List.map_nil, reIdAction, reId]
          · rw [readLoop_unexpected K wOut wErr r xs tr h1 h2 h3,
              readLoop_unexpected K wOut wErr ⟨⟨r.h.type, f r⟩, r.content⟩ _ _ h1 h2 h3]
            simp only [List.map_append, List.map_cons, List.map_nil, reIdAction, reId]

theorem preamble_reId (K : consts) (req : Request) (f : record → Nat) :
    (preamble K req).map (reIdAction f) = preamble K req := by
  unfold preamble
  split_ifs <;> rfl

theorem reading_reId (K : consts) (cn : conn) (wOut wErr : Writer) (err : Option Nat)
    (f : record → Nat) (tr : List action) :
    Handle.reading K { cn with reads := cn.reads.map (reId f) } wOut wErr err
        (tr.map (reIdAction f)) =
      ((Handle.reading K cn wOut wErr err tr).1,
        (Handle.reading K cn wOut wErr err tr).2.1.map (reIdAction f),
        (Handle.reading K cn wOut wErr err tr).2.2.map (reId f)) := by
  unfold Handle.reading
  simp only [readLoop_reId]
  rcases h : Handle.readLoop K wOut wErr cn.reads tr with ⟨x, tr1, rest⟩
  cases x <;> rfl

/-- The body of `Handle` on relabelled records. -/
theorem body_reId (K : consts) (cn : conn) (wOut wErr : Writer) (req : Request)
    (f : record → Nat) :
    Handle.body K { cn with reads := cn.reads.map (reId f) } wOut wErr req =
      ((Handle.body K cn wOut wErr req).1,
        (Handle.body K cn wOut wErr req).2.1.map (reIdAction f),
        (Handle.body K cn wOut wErr req).2.2.map (reId f)) := by
  rcases write_cases K cn req with ⟨e, h⟩ | ⟨hb, e, h⟩ | ⟨hb, hp, hc, e, h⟩ | hok
  · rw [body_begin_fails K cn wOut wErr req e h,
      body_begin_fails K { cn with reads := cn.reads.map (reId f) } wOut wErr req e h]
    rfl
  · rw [body_pairs_fails K cn wOut wErr req e hb h,
      body_pairs_fails K { cn with reads := cn.reads.map (reId f) } wOut wErr req e hb h]
    rfl
  · rw [body_stdin_fails K cn wOut wErr req e hb hp hc h,
      body_stdin_fails K { cn with reads := cn.reads.map (reId f) } wOut wErr req e hb hp hc h]
    rfl
  · rw [body_writesOk K cn wOut wErr req hok,
      body_writesOk K { cn with reads := cn.reads.map (reId f) } wOut wErr req hok,
      ← reading_reId, preamble_reId]

/-- C10, as the code has it: the request is number `1`; a Stdout record for request `2`
is handed to this call's `wOut`, and an EndRequest record for request `2` ends this call's
loop, leaving the record of request `1` that follows unread. -/
theorem Handle_takes_foreign_records :
    outChunks (Handle fcgi
      (okConn [.got ⟨⟨6, 2⟩, [120]⟩, .got ⟨⟨3, 2⟩, []⟩, .got ⟨⟨6, 1⟩, [121]⟩])
      okWriter okWriter NewClient ⟨1, [], []⟩).trace = [[120]] ∧
    (Handle fcgi (okConn [.got ⟨⟨6, 2⟩, [120]⟩, .got ⟨⟨3, 2⟩, []⟩, .got ⟨⟨6, 1⟩, [121]⟩])
      okWriter okWriter NewClient ⟨1, [], []⟩).exit = .returned none ∧
    (Handle fcgi (okConn [.got ⟨⟨6, 2⟩, [120]⟩, .got ⟨⟨3, 2⟩, []⟩, .got ⟨⟨6, 1⟩, [121]⟩])
      okWriter okWriter NewClient ⟨1, [], []⟩).unread = [.got ⟨⟨6, 1⟩, [121]⟩] := by
  decide

/-- C10, amended: the read loop of `Handle` classifies incoming records by type alone.
Replacing the request ids of the incoming records by any others changes neither how
`Handle` ends, nor what is handed to `wOut` and `wErr`, nor how many records are read or
left unread: a Stdout or Stderr record goes to this call's sink and an EndRequest record
ends this call's loop whatever request id it carries. -/
theorem Handle_ignores_request_id (K : consts) (cn : conn) (wOut wErr : Writer)
    (c : client) (req : Request) (f : record → Nat) :
    (Handle K { cn with reads := cn.reads.map (reId f) } wOut wErr c req).exit =
      (Handle K cn wOut wErr c req).exit ∧
    outChunks (Handle K { cn with reads := cn.reads.map (reId f) } wOut wErr c req).trace =
      outChunks (Handle K cn wOut wErr c req).trace ∧
    errChunks (Handle K { cn with reads := cn.reads.map (reId f) } wOut wErr c req).trace =
      errChunks (Handle K cn wOut wErr c req).trace ∧
    readsDone (Handle K { cn with reads := cn.reads.map (reId f) } wOut wErr c req).trace =
      (readsDone (Handle K cn wOut wErr c req).trace).map (reId f) ∧
    (Handle K { cn with reads := cn.reads.map (reId f) } wOut wErr c req).unread =
      (Handle K cn wOut wErr c req).unread.map (reId f) := by
  have hb := body_reId K cn wOut wErr req f
  have key : Handle K { cn with reads := cn.reads.map (reId f) } wOut wErr c req =
      { exit := (Handle K cn wOut wErr c req).exit,
        trace := (Handle K cn wOut wErr c req).trace.map (reIdAction f),
        unread := (Handle K cn wOut wErr c req).unread.map (reId f),
        c := (Handle K cn wOut wErr c req).c } := by
    by_cases hbl : (Handle.body K cn wOut wErr req).1 = .blocked
    · have hbl2 : (Handle.body K { cn with reads := cn.reads.map (reId f) } wOut wErr req).1
          = .blocked := by rw [hb]; exact hbl
      rw [Handle_of_body_blocked K _ wOut wErr c req hbl2,
        Handle_of_body_blocked K cn wOut wErr c req hbl, hb]
    · have hbl2 : (Handle.body K { cn with reads := cn.reads.map (reId f) } wOut wErr req).1
          ≠ .blocked := by rw [hb]; exact hbl
      rw [Handle_of_body K _ wOut wErr c req hbl2, Handle_of_body K cn wOut wErr c req hbl, hb]
      simp only [List.map_append, List.map_cons, List.map_nil, reIdAction]
  rw [key]
  exact ⟨rfl, outChunks_reId f _, errChunks_reId f _, readsDone_reId f _, rfl⟩

/-- The loop only adds to the actions done so far, and what it adds holds no write on
the connection and no release. -/
theorem readLoop_extends (K : consts) (wOut wErr : Writer) (rs : List readResult)
    (tr : List action) :
    ∃ suffix, (Handle.readLoop K wOut wErr rs tr).2.1 = tr ++ suffix ∧
      connWrites suffix = [] ∧ released suffix = [] := by
  induction rs generalizing tr with
  | nil => exact ⟨[], by simp [readLoop_nil], rfl, rfl⟩
  | cons x xs ih =>
    cases x with
    | failed e => exact ⟨[.read (.failed e)], by rw [readLoop_failed], rfl, rfl⟩
    | got r =>
      by_cases h1 : r.h.type = K.typeStdout
      · obtain ⟨suf, hs, hw, hr⟩ :=
          ih (tr ++ [.read (.got r), .out r.content (wOut (outChunks tr) r.content)])
        refine ⟨.read (.got r) :: .out r.content (wOut (outChunks tr) r.content) :: suf,
          ?_, ?_, ?_⟩
        · rw [readLoop_stdout K wOut wErr r xs tr h1, hs, List.append_assoc]
          rfl
        · simp only [connWrites, hw]
        · simp only [released, hr]
      · by_cases h2 : r.h.type = K.typeStderr
        · obtain ⟨suf, hs, hw, hr⟩ :=
            ih (tr ++ [.read (.got r), .err r.content (wErr (errChunks tr) r.content)])
          refine ⟨.read (.got r) :: .err r.content (wErr (errChunks tr) r.content) :: suf,
            ?_, ?_, ?_⟩
          · rw [readLoop_stderr K wOut wErr r xs tr h2, hs, List.append_assoc]
            rfl
          · simp only [connWrites, hw]
          · simp only [released, hr]
        · by_cases h3 : r.h.type = K.typeEndRequest
          · exact ⟨[.read (.got r)], by rw [readLoop_endRequest K wOut wErr r xs tr h3],
              rfl, rfl⟩
          · exact ⟨[.read (.got r)],
              by rw [readLoop_unexpected K wOut wErr r xs tr h1 h2 h3], rfl, rfl⟩

theorem preamble_eq (K : consts) (req : Request) :
    preamble K req =
      [.beginRequest req.ID K.roleResponder 0 none,
        .pairs K.typeParams req.ID req.Params none] ++
      (if req.Content ≠ [] then [.record K.typeStdin req.ID req.Content none] else []) := by
  unfold preamble Request.GetID
  by_cases hc : req.Content = []
  · simp [hc]
  · have : req.Content.length > 0 := List.length_pos.mpr hc
    simp [hc, this]

theorem connWrites_preamble (K : consts) (req : Request) :
    connWrites (preamble K req) = preamble K req := by
  unfold preamble
  split_ifs <;> rfl

/-- C11: when every write succeeds, the writes that `Handle` issues on the connection
are, in this order, one BeginRequest for `req.ID` with role Responder and flags `0`, the
Params pairs of `req.Params` for `req.ID`, and a single Stdin record with `req.Content`
for `req.ID` exactly when `req.Content` is non-empty; they come first in the actions of
`Handle`, before any read, and no write follows them. -/
theorem Handle_writes_in_order (K : consts) (cn : conn) (wOut wErr : Writer) (c : client)
    (req : Request) (hok : writesOk K cn req) :
    connWrites (Handle K cn wOut wErr c req).trace =
      [.beginRequest req.ID K.roleResponder 0 none,
        .pairs K.typeParams req.ID req.Params none] ++
      (if req.Content ≠ [] then [.record K.typeStdin req.ID req.Content none] else []) ∧
    ∃ suffix, (Handle K cn wOut wErr c req).trace =
      ([.beginRequest req.ID K.roleResponder 0 none,
        .pairs K.typeParams req.ID req.Params none] ++
      (if req.Content ≠ [] then [.record K.typeStdin req.ID req.Content none] else [])) ++
        suffix ∧
      connWrites suffix = [] := by
  rw [← preamble_eq]
  obtain ⟨suf, hs, hw, _⟩ := readLoop_extends K wOut wErr cn.reads (preamble K req)
  have hbody : (Handle.body K cn wOut wErr req).2.1 = preamble K req ++ suf := by
    rw [body_writesOk K cn wOut wErr req hok, reading_trace, hs]
  have key : ∃ suffix, (Handle K cn wOut wErr c req).trace = preamble K req ++ suffix ∧
      connWrites suffix = [] := by
    by_cases hbl : (Handle.body K cn wOut wErr req).1 = .blocked
    · rw [Handle_of_body_blocked K cn wOut wErr c req hbl]
      exact ⟨suf, hbody, hw⟩
    · rw [Handle_of_body K cn wOut wErr c req hbl]
      refine ⟨suf ++ [.release req.GetID], ?_, ?_⟩
      · simp only [hbody, List.append_assoc]
      · rw [connWrites_append, hw]
        rfl
  obtain ⟨suffix, h1, h2⟩ := key
  refine ⟨?_, suffix, h1, h2⟩
  rw [h1, connWrites_append, h2, List.append_nil, connWrites_preamble]

theorem Handle_writes_in_order_witness :
    writesOk fcgi (okConn [.got ⟨⟨6, 1⟩, [104]⟩, .got ⟨⟨3, 1⟩, []⟩])
      ⟨1, [("SCRIPT_NAME", "/foo")], [120, 121]⟩ ∧
    connWrites (Handle fcgi (okConn [.got ⟨⟨6, 1⟩, [104]⟩, .got ⟨⟨3, 1⟩, []⟩])
      okWriter okWriter NewClient ⟨1, [("SCRIPT_NAME", "/foo")], [120, 121]⟩).trace =
      [.beginRequest 1 1 0 none, .pairs 4 1 [("SCRIPT_NAME", "/foo")] none,
        .record 5 1 [120, 121] none] :=
  ⟨by decide,
    (Handle_writes_in_order fcgi (okConn [.got ⟨⟨6, 1⟩, [104]⟩, .got ⟨⟨3, 1⟩, []⟩])
      okWriter okWriter NewClient ⟨1, [("SCRIPT_NAME", "/foo")], [120, 121]⟩ (by decide)).1⟩

/-! ## The pool of candidates -/

theorem mem_candidates {c : client} {i : Nat} :
    i ∈ candidates c ↔ i ∈ c.chanID.waiting ∨ (c.chanID.gen ≤ i ∧ i < 65536) := by
  unfold candidates
  rw [List.mem_append, List.mem_range'_1]
  constructor
  · rintro (h | h)
    · exact Or.inl h
    · exact Or.inr ⟨h.1, by omega⟩
  · rintro (h | h)
    · exact Or.inl h
    · exact Or.inr ⟨h.1, by omega⟩

theorem NewClient_tidy : tidy NewClient := by
  refine ⟨List.nodup_nil, ?_, ?_, ?_⟩
  · intro w hw; cases hw
  · intro i hi; cases hi
  · simp [NewClient]

/-- An element left after erasing position `j` of a list without repetition differs from
the element erased. -/
theorem ne_of_mem_eraseIdx {l : List Nat} {j : Nat} (hj : j < l.length) (hn : l.Nodup)
    {x : Nat} (hx : x ∈ l.eraseIdx j) : x ≠ l[j] := by
  rw [List.mem_eraseIdx_iff_getElem] at hx
  obtain ⟨i, hi, hij, rfl⟩ := hx
  intro heq
  exact hij ((List.Nodup.getElem_inj_iff hn).mp heq)

/-- In a tidy client the candidate that a receive yields is not marked. -/
theorem recv_tidy_free {c c1 : client} {pick v : Nat} (ht : tidy c)
    (h : recv c pick = some (v, c1)) : c1.ids v = false := by
  obtain ⟨_, hw, hi, _⟩ := ht
  rw [recv_ids h]
  rcases recv_cases h with ⟨hg, _⟩ | ⟨j, hj, hv, _⟩
  · have hv := (genOffer_lt hg).2.2
    cases hc : c.ids v with
    | false => rfl
    | true => have := hi v hc; omega
  · rw [hv, List.getD_eq_getElem _ _ hj]
    exact (hw _ (List.getElem_mem _)).2

/-- In a tidy client `AllocID` returns the first candidate it draws, or is parked when
there is none to draw. -/
theorem AllocID_tidy_first (c : client) (sched : List Nat) (ht : tidy c) :
    AllocID c sched =
      match recv c (sched.headD 0) with
      | none => .blocked c
      | some (reqID, c1) =>
        .returned reqID { c1 with ids := fun k => if k = reqID then true else c1.ids k } := by
  rw [AllocID_unfold]
  cases hr : recv c (sched.headD 0) with
  | none => rfl
  | some p =>
    obtain ⟨v, c1⟩ := p
    have := recv_tidy_free ht hr
    simp only [this, Bool.false_eq_true, if_false]

/-- A call of `AllocID` keeps the client tidy. -/
theorem AllocID_tidy (c : client) (sched : List Nat) (ht : tidy c) :
    tidy (AllocID c sched).state := by
  rw [AllocID_tidy_first c sched ht]
  cases hr : recv c (sched.headD 0) with
  | none => exact ht
  | some p =>
    obtain ⟨v, c1⟩ := p
    obtain ⟨hn, hw, hi, hg⟩ := ht
    simp only [blocking.state]
    rcases recv_cases hr with ⟨hgo, rfl⟩ | ⟨j, hj, hv, rfl⟩
    · obtain ⟨_, hlt, hvg⟩ := genOffer_lt hgo
      refine ⟨hn, ?_, ?_, ?_⟩
      · intro w hmem
        have := hw w hmem
        have hne : ¬ w = v := by omega
        simp only [hne, if_false]
        exact ⟨by omega, this.2⟩
      · intro i hi1
        simp only at hi1
        by_cases hiv : i = v
        · simp only; omega
        · simp only [hiv, if_false] at hi1
          have := hi i hi1
          simp only; omega
      · simp only; omega
    · have hvm : v = c.chanID.waiting[j] := by rw [hv, List.getD_eq_getElem _ _ hj]
      refine ⟨hn.sublist (List.eraseIdx_sublist _ _), ?_, ?_, hg⟩
      · intro w hmem
        simp only at hmem
        have hne : w ≠ v := by rw [hvm]; exact ne_of_mem_eraseIdx hj hn hmem
        have := hw w (List.mem_of_mem_eraseIdx hmem)
        simp only [hne, if_false]
        exact this
      · intro i hi1
        simp only at hi1
        by_cases hiv : i = v
        · have := (hw v (by rw [hvm]; exact List.getElem_mem _)).1
          simp only; omega
        · simp only [hiv, if_false] at hi1
          exact hi i hi1

/-- A `ReleaseID` of a marked id keeps the client tidy. -/
theorem ReleaseID_tidy (c : client) (j : Nat) (ht : tidy c) (hj : c.ids j = true) :
    tidy (ReleaseID c j) := by
  obtain ⟨hn, hw, hi, hg⟩ := ht
  have hjw : j ∉ c.chanID.waiting := by
    intro hmem
    have := (hw j hmem).2
    rw [hj] at this
    cases this
  refine ⟨?_, ?_, ?_, hg⟩
  · simp only [ReleaseID]
    rw [List.nodup_append]
    refine ⟨hn, List.nodup_singleton j, ?_⟩
    intro a ha hb
    rw [List.mem_singleton] at hb
    exact hjw (hb ▸ ha)
  · intro w hmem
    simp only [ReleaseID, List.mem_append, List.mem_singleton] at hmem
    simp only [ReleaseID]
    rcases hmem with hmem | rfl
    · have := hw w hmem
      by_cases hwj : w = j
      · exact absurd (hwj ▸ hmem) hjw
      · simp only [hwj, if_false]
        exact this
    · simp only [if_true, and_true]
      exact hi w hj
  · intro i hi1
    simp only [ReleaseID] at hi1 ⊢
    by_cases hij : i = j
    · simp [hij] at hi1
    · simp only [hij, if_false] at hi1
      exact hi i hi1

/-- Well-formed sequences of calls keep the client tidy. -/
theorem run_tidy (calls : List call) (c : client) (tr : List event) (ht : tidy c)
    (hin : ∀ i, c.ids i = inUse tr i) (hwf : wellFormed tr c calls = true) :
    tidy (run c calls).2 := by
  induction calls generalizing c tr with
  | nil => exact ht
  | cons k ks ih =>
    rw [run_cons]
    have hin2 := step_inUse c k tr hin
    cases k with
    | alloc sched =>
      simp only [wellFormed] at hwf
      refine ih _ _ ?_ hin2 hwf
      have := AllocID_tidy c sched ht
      simp only [step]
      cases ha : AllocID c sched with
      | returned v c1 => rw [ha] at this; exact this
      | blocked c1 => rw [ha] at this; exact this
    | release j =>
      simp only [wellFormed, Bool.and_eq_true] at hwf
      refine ih _ _ ?_ hin2 hwf.2
      exact ReleaseID_tidy c j ht (by rw [hin j]; exact hwf.1)

/-- In a tidy client no candidate is marked and no value is a candidate twice. -/
theorem tidy_candidates {c : client} (ht : tidy c) :
    (candidates c).Nodup ∧ ∀ i ∈ candidates c, c.ids i = false := by
  obtain ⟨hn, hw, hi, hg⟩ := ht
  constructor
  · unfold candidates
    rw [List.nodup_append]
    refine ⟨hn, List.nodup_range' _ _, ?_⟩
    intro a ha hb
    rw [List.mem_range'_1] at hb
    have := (hw a ha).1
    omega
  · intro i hmem
    rcases mem_candidates.mp hmem with h | h
    · exact (hw i h).2
    · cases hc : c.ids i with
      | false => rfl
      | true => have := hi i hc; omega

/-- C12, as the code has it: after `AllocID`, `ReleaseID(0)`, `ReleaseID(0)`, `AllocID`
(the second `AllocID` taking one of the two queued copies of `0`), the id `0` is marked
in-use and is at the same time a pending candidate, queued by the other release. -/
theorem candidate_in_use_after_double_release :
    0 ∈ candidates (run NewClient [.alloc [], .release 0, .release 0, .alloc [1]]).2 ∧
    (run NewClient [.alloc [], .release 0, .release 0, .alloc [1]]).2.ids 0 = true ∧
    inUse (run NewClient [.alloc [], .release 0, .release 0, .alloc [1]]).1 0 = true :=
  ⟨mem_candidates.mpr (Or.inl (by decide)), by decide, by decide⟩

/-- C12, amended: in every state reachable from a fresh client by a sequence of `AllocID`
and `ReleaseID` calls in which `ReleaseID` is only passed ids that are in use at that
moment, the pending candidates (queued by a release or still to be produced by the
generator) and the ids marked in-use are disjoint, for the map `ids` and for the in-use
set read off the history alike. -/
theorem candidates_not_in_use (calls : List call) (i : Nat)
    (hwf : wellFormed [] NewClient calls = true)
    (hi : i ∈ candidates (run NewClient calls).2) :
    (run NewClient calls).2.ids i = false ∧ inUse (run NewClient calls).1 i = false := by
  have ht := run_tidy calls NewClient [] NewClient_tidy NewClient_inUse hwf
  have h1 := (tidy_candidates ht).2 i hi
  have h2 := run_inUse calls NewClient [] NewClient_inUse i
  rw [List.nil_append] at h2
  exact ⟨h1, by rw [← h2]; exact h1⟩

theorem candidates_not_in_use_witness :
    wellFormed [] NewClient [.alloc [], .alloc [], .release 0, .alloc [], .release 1] = true ∧
    1 ∈ candidates (run NewClient [.alloc [], .alloc [], .release 0, .alloc [],
      .release 1]).2 ∧
    inUse (run NewClient [.alloc [], .alloc [], .release 0, .alloc [], .release 1]).1 1
      = false :=
  ⟨by decide, mem_candidates.mpr (Or.inl (by decide)),
    (candidates_not_in_use [.alloc [], .alloc [], .release 0, .alloc [], .release 1] 1
      (by decide) (mem_candidates.mpr (Or.inl (by decide)))).2⟩

/-- C18: under well-formed use, where `ReleaseID` is only passed ids that are in use at
that moment, every reachable state has each value at most once among the pending
candidates and no pending candidate marked in-use; so `AllocID` returns the first
candidate it draws (or is parked when the channel has no sender), and a call that
returns has used up exactly one candidate. -/
theorem wellFormed_first_candidate (calls : List call) (sched : List Nat)
    (hwf : wellFormed [] NewClient calls = true) :
    (candidates (run NewClient calls).2).Nodup ∧
    (∀ i ∈ candidates (run NewClient calls).2, (run NewClient calls).2.ids i = false) ∧
    (AllocID (run NewClient calls).2 sched =
      match recv (run NewClient calls).2 (sched.headD 0) with
      | none => .blocked (run NewClient calls).2
      | some (reqID, c1) =>
        .returned reqID { c1 with ids := fun k => if k = reqID then true else c1.ids k }) ∧
    ((AllocID (run NewClient calls).2 sched).isBlocked = false →
      remaining (AllocID (run NewClient calls).2 sched).state + 1 =
        remaining (run NewClient calls).2) := by
  have ht := run_tidy calls NewClient [] NewClient_tidy NewClient_inUse hwf
  have hfirst := AllocID_tidy_first (run NewClient calls).2 sched ht
  refine ⟨(tidy_candidates ht).1, (tidy_candidates ht).2, hfirst, ?_⟩
  rw [hfirst]
  cases hr : recv (run NewClient calls).2 (sched.headD 0) with
  | none => intro h; cases h
  | some p =>
    obtain ⟨v, c1⟩ := p
    intro _
    have h := recv_remaining hr
    exact h

theorem wellFormed_first_candidate_witness :
    wellFormed [] NewClient [.alloc [], .alloc [], .release 0, .alloc [], .release 1] = true ∧
    (AllocID (run NewClient [.alloc [], .alloc [], .release 0, .alloc [], .release 1]).2
      [2]).val? = some 1 ∧
    (candidates (run NewClient [.alloc [], .alloc [], .release 0, .alloc [],
      .release 1]).2).Nodup :=
  ⟨by decide, by decide,
    (wellFormed_first_candidate [.alloc [], .alloc [], .release 0, .alloc [], .release 1] [2]
      (by decide)).1⟩

theorem run_append (c : client) (a b : List call) :
    run c (a ++ b) = ((run c a).1 ++ (run (run c a).2 b).1, (run (run c a).2 b).2) := by
  induction a generalizing c with
  | nil => rfl
  | cons k ks ih =>
    rw [List.cons_append, run_cons, run_cons, ih]
    rfl

theorem offers_eq_nil {c : client} (h : remaining c = 0) : offers c = [] := by
  simp only [remaining] at h
  have hg : genOffer c.chanID.gen = none := genOffer_none.mpr (by omega)
  have hw : c.chanID.waiting = [] := List.length_eq_zero.mp (by omega)
  simp [offers, hg, hw]

/-- With every `uint16` value marked and only `uint16` values waiting, `AllocID` draws and
discards every candidate there is and is then parked; the map is as before. -/
theorem AllocID_all_marked (n : Nat) (c : client) (sched : List Nat)
    (hn : remaining c = n)
    (hw : ∀ w ∈ c.chanID.waiting, w < 65536)
    (hall : ∀ i, i < 65536 → c.ids i = true) :
    (AllocID c sched).isBlocked = true ∧ offers (AllocID c sched).state = [] ∧
    (AllocID c sched).state.ids = c.ids := by
  induction n using Nat.strong_induction_on generalizing c sched with
  | _ n ih =>
    rw [AllocID_unfold]
    cases hr : recv c (sched.headD 0) with
    | none => exact ⟨rfl, offers_eq_nil (recv_eq_none.mp hr), rfl⟩
    | some p =>
      obtain ⟨v, c1⟩ := p
      have hlt := recv_lt hw hr
      have hids := recv_ids hr
      have hrem := recv_remaining hr
      have hv : c1.ids v = true := by rw [hids]; exact hall v hlt.1
      simp only [hv, if_true]
      have := ih (remaining c1) (by omega) c1 sched.tail rfl hlt.2
        (fun i hi => by rw [hids]; exact hall i hi)
      rw [hids] at this
      exact this

/-- C13: in every state reachable from a fresh client by `AllocID` and `ReleaseID` calls
(`ReleaseID` being passed `uint16` values) in which all `uint16` values are marked
in-use, `AllocID` does not return under any scheduling: every pending candidate is in
use, the call discards all of them, leaving no sender on the channel, changes no mark,
and is parked until a release. -/
theorem AllocID_blocks_when_all_marked (calls : List call) (sched : List Nat)
    (hrel : ∀ j, call.release j ∈ calls → j < 65536)
    (hall : ∀ i, i < 65536 → (run NewClient calls).2.ids i = true) :
    (∀ i ∈ candidates (run NewClient calls).2, (run NewClient calls).2.ids i = true) ∧
    (AllocID (run NewClient calls).2 sched).isBlocked = true ∧
    (AllocID (run NewClient calls).2 sched).val? = none ∧
    offers (AllocID (run NewClient calls).2 sched).state = [] ∧
    (AllocID (run NewClient calls).2 sched).state.ids = (run NewClient calls).2.ids := by
  have hw := run_waiting_lt calls NewClient (by simp [NewClient]) hrel
  have h := AllocID_all_marked _ (run NewClient calls).2 sched rfl hw hall
  refine ⟨?_, h.1, ?_, h.2.1, h.2.2⟩
  · intro i hi
    rcases mem_candidates.mp hi with hm | hm
    · exact hall i (hw i hm)
    · exact hall i hm.2
  · cases ha : AllocID (run NewClient calls).2 sched with
    | returned v c1 => have := h.1; rw [ha] at this; cases this
    | blocked c1 => rfl

/-- A state with every `uint16` value marked and a stale candidate waiting: `65536`
allocations, then `ReleaseID(5)` twice and one `AllocID` that takes the first copy. -/
theorem run_exhausted_reused :
    (run NewClient ((List.replicate 65536 []).map call.alloc ++
        [.release 5, .release 5, .alloc [0]])).2 =
      { chanID := { gen := 65536, waiting := [5] }, ids := fun k => decide (k < 65536) } := by
  have hg : genOffer 65536 = none := genOffer_none.mpr (le_refl _)
  have hrun := run_allocs (List.replicate 65536 []) 0 (by rw [List.length_replicate])
  rw [← NewClient_eq, List.length_replicate] at hrun
  have hr : recv (ReleaseID (ReleaseID (allocatedUpTo 65536) 5) 5) 0 =
      some (5, { ReleaseID (ReleaseID (allocatedUpTo 65536) 5) 5 with
        chanID := { gen := 65536, waiting := [5] } }) := by
    simp [recv, offers, ReleaseID, allocatedUpTo, hg]
  have ha : AllocID (ReleaseID (ReleaseID (allocatedUpTo 65536) 5) 5) [0] =
      .returned 5
        { chanID := { gen := 65536, waiting := [5] }, ids := fun k => decide (k < 65536) } := by
    rw [AllocID_unfold]
    simp only [List.headD_cons, hr]
    have h5 : (ReleaseID (ReleaseID (allocatedUpTo 65536) 5) 5).ids 5 = false := by
      simp [ReleaseID]
    simp only [h5, Bool.false_eq_true, if_false, blocking.returned.injEq, true_and,
      client.mk.injEq]
    funext k
    by_cases hk : k = 5
    · simp [hk]
    · simp [hk, ReleaseID, allocatedUpTo]
  rw [run_append, hrun]
  simp only [Nat.zero_add, run_cons, run_nil, step, ha]

theorem AllocID_blocks_when_all_marked_witness :
    (∀ j, call.release j ∈ (List.replicate 65536 []).map call.alloc ++
        [.release 5, .release 5, .alloc [0]] → j < 65536) ∧
    (∀ i, i < 65536 → (run NewClient ((List.replicate 65536 []).map call.alloc ++
        [.release 5, .release 5, .alloc [0]])).2.ids i = true) ∧
    5 ∈ candidates (run NewClient ((List.replicate 65536 []).map call.alloc ++
        [.release 5, .release 5, .alloc [0]])).2 ∧
    (AllocID (run NewClient ((List.replicate 65536 []).map call.alloc ++
        [.release 5, .release 5, .alloc [0]])).2 [3]).isBlocked = true ∧
    offers (AllocID (run NewClient ((List.replicate 65536 []).map call.alloc ++
        [.release 5, .release 5, .alloc [0]])).2 [3]).state = [] :=
  have hrel : ∀ j, call.release j ∈ (List.replicate 65536 []).map call.alloc ++
      [.release 5, .release 5, .alloc [0]] → j < 65536 := by
    intro j hj
    rw [List.mem_append] at hj
    rcases hj with hj | hj
    · rw [List.mem_map] at hj
      obtain ⟨_, _, h⟩ := hj
      cases h
    · simp at hj
      omega
  have hall : ∀ i, i < 65536 → (run NewClient ((List.replicate 65536 []).map call.alloc ++
      [.release 5, .release 5, .alloc [0]])).2.ids i = true := by
    intro i hi
    rw [run_exhausted_reused]
    simpa using hi
  have hmem : 5 ∈ candidates (run NewClient ((List.replicate 65536 []).map call.alloc ++
      [.release 5, .release 5, .alloc [0]])).2 := by
    rw [run_exhausted_reused]
    exact mem_candidates.mpr (Or.inl (List.mem_singleton.mpr rfl))
  ⟨hrel, hall, hmem,
    (AllocID_blocks_when_all_marked _ [3] hrel hall).2.1,
    (AllocID_blocks_when_all_marked _ [3] hrel hall).2.2.2.1⟩

/-- The send started by `ReleaseID` is pending after the call: a later receive paired
with that goroutine obtains the id and leaves the channel as it was before the call. -/
theorem recv_released (c : client) (j : Nat) :
    recv (ReleaseID c j) ((offers (ReleaseID c j)).length - 1) =
      some (j, { chanID := c.chanID, ids := (ReleaseID c j).ids }) := by
  have hw : (ReleaseID c j).chanID.waiting = c.chanID.waiting ++ [j] := rfl
  have hgen : (ReleaseID c j).chanID.gen = c.chanID.gen := rfl
  have hlen : (offers (ReleaseID c j)).length =
      (genOffer c.chanID.gen).toList.length + (c.chanID.waiting.length + 1) := by
    simp [offers, hw, hgen]
  have hget : (c.chanID.waiting ++ [j]).getD c.chanID.waiting.length 0 = j := by
    rw [List.getD_append_right _ _ _ _ (le_refl _)]
    simp
  have hera : (c.chanID.waiting ++ [j]).eraseIdx c.chanID.waiting.length = c.chanID.waiting := by
    rw [List.eraseIdx_append_of_length_le (le_refl _)]
    simp
  unfold recv
  simp only
  cases hg : genOffer c.chanID.gen with
  | none =>
    rw [hg] at hlen
    simp only [Option.toList_none, List.length_nil, Nat.zero_add] at hlen
    rw [hlen, if_neg (by omega), hgen, hg]
    simp only [Nat.add_sub_cancel, Nat.mod_eq_of_lt (Nat.lt_succ_self _), hw, hget, hera]
  | some v =>
    rw [hg] at hlen
    simp only [Option.toList_some, List.length_singleton] at hlen
    have hmod : (1 + (c.chanID.waiting.length + 1) - 1) % (1 + (c.chanID.waiting.length + 1))
        = c.chanID.waiting.length + 1 := by
      rw [Nat.mod_eq_of_lt (by omega)]
      omega
    rw [hlen, if_neg (by omega), hgen, hg]
    simp only [hmod, if_neg (Nat.succ_ne_zero _), Nat.add_sub_cancel, hw, hget, hera]

/-- A receive takes away one occurrence of the value it yields and no other candidate. -/
theorem recv_candidates {c c1 : client} {pick v i : Nat} (h : recv c pick = some (v, c1))
    (hiv : i ≠ v) (hi : i ∈ candidates c) : i ∈ candidates c1 := by
  rcases recv_cases h with ⟨hg, rfl⟩ | ⟨j, hj, hv, rfl⟩
  · have hvg := (genOffer_lt hg).2.2
    rcases mem_candidates.mp hi with hm | hm
    · exact mem_candidates.mpr (Or.inl hm)
    · exact mem_candidates.mpr (Or.inr ⟨by simp only; omega, hm.2⟩)
  · rcases mem_candidates.mp hi with hm | hm
    · refine mem_candidates.mpr (Or.inl ?_)
      simp only
      rw [List.mem_eraseIdx_iff_getElem]
      obtain ⟨m, hm1, hm2⟩ := List.getElem_of_mem hm
      refine ⟨m, hm1, ?_, hm2⟩
      intro hmj
      subst hmj
      apply hiv
      rw [hv, List.getD_eq_getElem _ _ hj, hm2]
    · exact mem_candidates.mpr (Or.inr hm)

theorem remaining_pos_of_candidate {c : client} {i : Nat} (hi : i ∈ candidates c) :
    0 < remaining c := by
  rcases mem_candidates.mp hi with hm | hm
  · have := List.length_pos_of_mem hm
    simp only [remaining]; omega
  · simp only [remaining]; omega

/-- A call of `AllocID` keeps every unmarked `uint16` value among the candidates. -/
theorem AllocID_keeps (n : Nat) (c : client) (sched : List Nat) (hn : remaining c = n)
    (hk : ∀ i, i < 65536 → c.ids i = false → i ∈ candidates c) :
    ∀ i, i < 65536 → (AllocID c sched).state.ids i = false →
      i ∈ candidates (AllocID c sched).state := by
  induction n using Nat.strong_induction_on generalizing c sched with
  | _ n ih =>
    rw [AllocID_unfold]
    cases hr : recv c (sched.headD 0) with
    | none => exact hk
    | some p =>
      obtain ⟨v, c1⟩ := p
      have hids := recv_ids hr
      have hrem := recv_remaining hr
      by_cases hv : c1.ids v = true
      · simp only [hv, if_true]
        refine ih (remaining c1) (by omega) c1 sched.tail rfl ?_
        intro i hi hf
        have hne : i ≠ v := by
          intro e; rw [e, hv] at hf; cases hf
        rw [hids] at hf
        exact recv_candidates hr hne (hk i hi hf)
      · simp only [hv, if_false, blocking.state]
        intro i hi hf
        have hne : i ≠ v := by
          intro e; simp [e] at hf
        have hf2 : c1.ids i = false := by simpa [hne] using hf
        rw [hids] at hf2
        have := recv_candidates hr hne (hk i hi hf2)
        exact mem_candidates.mpr (mem_candidates.mp this)

/-- Along any sequence of calls every unmarked `uint16` value is a pending candidate. -/
theorem run_keeps (calls : List call) (c : client)
    (hk : ∀ i, i < 65536 → c.ids i = false → i ∈ candidates c) :
    ∀ i, i < 65536 → (run c calls).2.ids i = false → i ∈ candidates (run c calls).2 := by
  induction calls generalizing c with
  | nil => exact hk
  | cons k ks ih =>
    rw [run_cons]
    apply ih
    cases k with
    | alloc sched =>
      have := AllocID_keeps _ c sched rfl hk
      simp only [step]
      cases ha : AllocID c sched with
      | returned v c1 => rw [ha] at this; exact this
      | blocked c1 => rw [ha] at this; exact this
    | release j =>
      intro i hi hf
      simp only [step, ReleaseID] at hf ⊢
      by_cases hij : i = j
      · exact mem_candidates.mpr (Or.inl (by simp [hij]))
      · simp only [hij, if_false] at hf
        rcases mem_candidates.mp (hk i hi hf) with hm | hm
        · exact mem_candidates.mpr (Or.inl (List.mem_append_left _ hm))
        · exact mem_candidates.mpr (Or.inr hm)

theorem NewClient_keeps :
    ∀ i, i < 65536 → NewClient.ids i = false → i ∈ candidates NewClient := by
  intro i hi _
  exact mem_candidates.mpr (Or.inr ⟨Nat.zero_le _, hi⟩)

/-- With an unmarked candidate `i` pending, `AllocID` returns: it draws candidates, drops
the marked ones, and hands out an unmarked one, which is `i` unless `i` is still an
unmarked pending candidate afterwards; every draw uses up one pending send. -/
theorem AllocID_progress (n : Nat) (c : client) (sched : List Nat) (i : Nat)
    (hn : remaining c = n) (hi : i ∈ candidates c) (hf : c.ids i = false) :
    ∃ v c1, AllocID c sched = .returned v c1 ∧ c.ids v = false ∧
      remaining c1 < remaining c ∧ (v = i ∨ (i ∈ candidates c1 ∧ c1.ids i = false)) := by
  induction n using Nat.strong_induction_on generalizing c sched with
  | _ n ih =>
    rw [AllocID_unfold]
    cases hr : recv c (sched.headD 0) with
    | none =>
      have := remaining_pos_of_candidate hi
      have := recv_eq_none.mp hr
      omega
    | some p =>
      obtain ⟨v, c1⟩ := p
      have hids := recv_ids hr
      have hrem := recv_remaining hr
      by_cases hv : c1.ids v = true
      · simp only [hv, if_true]
        have hne : i ≠ v := by
          intro e; rw [e, ← hids, hv] at hf; cases hf
        obtain ⟨w, c2, h1, h2, h3, h4⟩ := ih (remaining c1) (by omega) c1 sched.tail rfl
          (recv_candidates hr hne hi) (by rw [hids]; exact hf)
        exact ⟨w, c2, h1, by rw [← hids]; exact h2, by omega, h4⟩
      · simp only [hv, if_false]
        refine ⟨v, _, rfl, ?_, ?_, ?_⟩
        · rw [← hids]; simpa using hv
        · simp only [remaining] at hrem ⊢
          omega
        · by_cases hiv : i = v
          · exact Or.inl hiv.symm
          · refine Or.inr ⟨?_, ?_⟩
            · have hc := recv_candidates hr hiv hi
              exact mem_candidates.mpr (mem_candidates.mp hc)
            · simp only [hiv, if_false]
              rw [hids]; exact hf

/-- With an unmarked candidate `i` pending and no further release, `i` is handed out
by one of the next `remaining c` calls of `AllocID`, whatever the scheduler picks. -/
theorem run_allocs_returns (scheds : List (List Nat)) (c : client) (i : Nat)
    (hi : i ∈ candidates c) (hf : c.ids i = false) (hlen : remaining c ≤ scheds.length) :
    i ∈ allocatedIds (run c (scheds.map call.alloc)).1 := by
  induction scheds generalizing c with
  | nil =>
    have := remaining_pos_of_candidate hi
    simp only [List.length_nil] at hlen
    omega
  | cons s ss ih =>
    obtain ⟨v, c1, h1, _, h3, h4⟩ := AllocID_progress _ c s i rfl hi hf
    have hs : step c (call.alloc s) = (.allocated v, c1) := by simp only [step, h1]
    rw [List.map_cons, run_cons, hs]
    simp only [allocatedIds, List.mem_cons]
    simp only [List.length_cons] at hlen
    rcases h4 with rfl | ⟨h5, h6⟩
    · exact Or.inl rfl
    · exact Or.inr (ih c1 h5 h6 (by omega))

/-- C17, amended: no id is lost from the pool.  In every state reachable from a fresh
client by any sequence of `AllocID` and `ReleaseID` calls, every `uint16` value that is not
marked in-use is among the pending candidates; so whenever some value is not in use,
`AllocID` returns an unmarked id under every scheduling, after at most as many draws as
there are pending sends, instead of being parked; and an id passed to `ReleaseID` is
returned again by one of the `AllocID` calls that follow, provided no `ReleaseID` comes in
between and there are at least as many of these calls as there are pending sends. -/
theorem no_id_lost (calls : List call) (sched : List Nat) :
    (∀ i, i < 65536 → (run NewClient calls).2.ids i = false →
      i ∈ candidates (run NewClient calls).2) ∧
    ((∃ i, i < 65536 ∧ (run NewClient calls).2.ids i = false) →
      (AllocID (run NewClient calls).2 sched).isBlocked = false ∧
      (∃ v, (AllocID (run NewClient calls).2 sched).val? = some v ∧
        (run NewClient calls).2.ids v = false) ∧
      remaining (AllocID (run NewClient calls).2 sched).state <
        remaining (run NewClient calls).2) ∧
    (∀ j (scheds : List (List Nat)),
      remaining (ReleaseID (run NewClient calls).2 j) ≤ scheds.length →
      j ∈ allocatedIds
        (run (ReleaseID (run NewClient calls).2 j) (scheds.map call.alloc)).1) := by
  have hk := run_keeps calls NewClient NewClient_keeps
  refine ⟨hk, ?_, ?_⟩
  · rintro ⟨i, hi, hf⟩
    obtain ⟨v, c1, h1, h2, h3, _⟩ :=
      AllocID_progress _ (run NewClient calls).2 sched i rfl (hk i hi hf) hf
    rw [h1]
    exact ⟨rfl, ⟨v, rfl, h2⟩, h3⟩
  · intro j scheds hlen
    refine run_allocs_returns scheds _ j ?_ ?_ hlen
    · exact mem_candidates.mpr (Or.inl (by simp [ReleaseID]))
    · simp [ReleaseID]

theorem no_id_lost_witness :
    (∃ i, i < 65536 ∧
      (run NewClient [.alloc [], .alloc [], .release 0, .release 0, .alloc [1]]).2.ids i
        = false) ∧
    (AllocID (run NewClient [.alloc [], .alloc [], .release 0, .release 0, .alloc [1]]).2
      [1, 1]).isBlocked = false ∧
    1 ∈ allocatedIds (run (ReleaseID
      (run NewClient [.alloc [], .alloc [], .release 0, .release 0, .alloc [1]]).2 1)
      ((List.replicate 65537 []).map call.alloc)).1 :=
  ⟨⟨2, by decide, by decide⟩,
    ((no_id_lost [.alloc [], .alloc [], .release 0, .release 0, .alloc [1]] [1, 1]).2.1
      ⟨2, by decide, by decide⟩).1,
    (no_id_lost [.alloc [], .alloc [], .release 0, .release 0, .alloc [1]] [1, 1]).2.2 1
      (List.replicate 65537 []) (by rw [List.length_replicate]; decide)⟩

/-! ## The result of `Handle` and the sinks -/

theorem Handle_exit (K : consts) (cn : conn) (wOut wErr : Writer) (c : client)
    (req : Request) :
    (Handle K cn wOut wErr c req).exit = (Handle.body K cn wOut wErr req).1 := by
  by_cases hbl : (Handle.body K cn wOut wErr req).1 = .blocked
  · rw [Handle_of_body_blocked K cn wOut wErr c req hbl, hbl]
  · rw [Handle_of_body K cn wOut wErr c req hbl]

/-- The read loop and the final `return` yield the named result as the writes left it. -/
theorem reading_returned (K : consts) (cn : conn) (wOut wErr : Writer) (err e : Option Nat)
    (tr : List action) (h : (Handle.reading K cn wOut wErr err tr).1 = .returned e) :
    e = err := by
  unfold Handle.reading at h
  rcases hl : Handle.readLoop K wOut wErr cn.reads tr with ⟨x, tr1, rest⟩
  rw [hl] at h
  cases x <;> simp at h <;> exact h.symm

/-- C19: for every run of `Handle` that returns, the returned error is non-nil exactly
when one of the write steps (BeginRequest, Params, Stdin) failed, and it is then the
error of that write, the first one to fail; when all write steps succeed the result is
nil however the read loop ended. -/
theorem Handle_error_iff_write_failed (K : consts) (cn : conn) (wOut wErr : Writer)
    (c : client) (req : Request) (err : Option Nat)
    (h : (Handle K cn wOut wErr c req).exit = .returned err) :
    (err ≠ none ↔ ¬ writesOk K cn req) ∧
    (err ≠ none →
      err = cn.writeBeginRequest req.ID K.roleResponder 0 ∨
      (cn.writeBeginRequest req.ID K.roleResponder 0 = none ∧
        err = cn.writePairs K.typeParams req.ID req.Params) ∨
      (cn.writeBeginRequest req.ID K.roleResponder 0 = none ∧
        cn.writePairs K.typeParams req.ID req.Params = none ∧ req.Content ≠ [] ∧
        err = cn.writeRecord K.typeStdin req.ID req.Content)) ∧
    (writesOk K cn req → err = none) := by
  rw [Handle_exit] at h
  rcases write_cases K cn req with ⟨e, hb⟩ | ⟨hb, e, hp⟩ | ⟨hb, hp, hc, e, hs⟩ | hok
  · rw [body_begin_fails K cn wOut wErr req e hb] at h
    simp only [outcome.returned.injEq] at h
    subst h
    have hno : ¬ writesOk K cn req := fun hok => by rw [hok.1] at hb; cases hb
    exact ⟨⟨fun _ => hno, fun _ => by simp⟩, fun _ => Or.inl hb.symm,
      fun hok => absurd hok hno⟩
  · rw [body_pairs_fails K cn wOut wErr req e hb hp] at h
    simp only [outcome.returned.injEq] at h
    subst h
    have hno : ¬ writesOk K cn req := fun hok => by rw [hok.2.1] at hp; cases hp
    exact ⟨⟨fun _ => hno, fun _ => by simp⟩, fun _ => Or.inr (Or.inl ⟨hb, hp.symm⟩),
      fun hok => absurd hok hno⟩
  · rw [body_stdin_fails K cn wOut wErr req e hb hp hc hs] at h
    simp only [outcome.returned.injEq] at h
    subst h
    have hno : ¬ writesOk K cn req := fun hok => by rw [hok.2.2 hc] at hs; cases hs
    exact ⟨⟨fun _ => hno, fun _ => by simp⟩,
      fun _ => Or.inr (Or.inr ⟨hb, hp, List.length_pos.mp hc, hs.symm⟩),
      fun hok => absurd hok hno⟩
  · rw [body_writesOk K cn wOut wErr req hok] at h
    have he := reading_returned K cn wOut wErr none err _ h
    subst he
    exact ⟨⟨fun hne => absurd rfl hne, fun hno => absurd hok hno⟩,
      fun hne => absurd rfl hne, fun _ => rfl⟩

theorem Handle_error_iff_write_failed_witness :
    ((Handle fcgi (pairsFailConn 8 [.got ⟨⟨3, 1⟩, []⟩]) okWriter okWriter NewClient
      ⟨1, [("A", "b")], []⟩).exit = .returned (some 8) ∧
      ¬ writesOk fcgi (pairsFailConn 8 [.got ⟨⟨3, 1⟩, []⟩]) ⟨1, [("A", "b")], []⟩) ∧
    ((Handle fcgi (okConn [.got ⟨⟨6, 1⟩, [104]⟩, .failed 5]) okWriter okWriter NewClient
      ⟨1, [], []⟩).exit = .returned none ∧
      writesOk fcgi (okConn [.got ⟨⟨6, 1⟩, [104]⟩, .failed 5]) ⟨1, [], []⟩) :=
  ⟨⟨by decide,
    (Handle_error_iff_write_failed fcgi (pairsFailConn 8 [.got ⟨⟨3, 1⟩, []⟩]) okWriter
      okWriter NewClient ⟨1, [("A", "b")], []⟩ (some 8) (by decide)).1.mp (by simp)⟩,
    ⟨by decide, by decide⟩⟩

theorem outChunks_forget (tr : List action) :
    outChunks (tr.map forgetSink) = outChunks tr := by
  induction tr with
  | nil => rfl
  | cons a as ih => cases a <;> simp [forgetSink, outChunks, ih]

theorem errChunks_forget (tr : List action) :
    errChunks (tr.map forgetSink) = errChunks tr := by
  induction tr with
  | nil => rfl
  | cons a as ih => cases a <;> simp [forgetSink, errChunks, ih]

theorem readsDone_forget (tr : List action) :
    readsDone (tr.map forgetSink) = readsDone tr := by
  induction tr with
  | nil => rfl
  | cons a as ih => cases a <;> simp [forgetSink, readsDone, ih]

/-- The loop with any sinks does what the loop with sinks that always succeed does, up to
the results of the sink writes. -/
theorem readLoop_forget (K : consts) (wOut wErr : Writer) (rs : List readResult)
    (tr : List action) :
    Handle.readLoop K okWriter okWriter rs (tr.map forgetSink) =
      ((Handle.readLoop K wOut wErr rs tr).1,
        (Handle.readLoop K wOut wErr rs tr).2.1.map forgetSink,
        (Handle.readLoop K wOut wErr rs tr).2.2) := by
  induction rs generalizing tr with
  | nil => rfl
  | cons x xs ih =>
    cases x with
    | failed e =>
      simp only [readLoop_failed, List.map_append, List.map_cons, List.map_nil, forgetSink]
    | got r =>
      by_cases h1 : r.h.type = K.typeStdout
      · rw [readLoop_stdout K wOut wErr r xs tr h1, readLoop_stdout K _ _ r xs _ h1, ← ih]
        simp only [List.map_append, List.map_cons, List.map_nil, forgetSink, okWriter]
      · by_cases h2 : r.h.type = K.typeStderr
        · rw [readLoop_stderr K wOut wErr r xs tr h2, readLoop_stderr K _ _ r xs _ h2, ← ih]
          simp only [List.map_append, List.map_cons, List.map_nil, forgetSink, okWriter]
        · by_cases h3 : r.h.type = K.typeEndRequest
          · rw [readLoop_endRequest K wOut wErr r xs tr h3,
              readLoop_endRequest K _ _ r xs _ h3]
            simp only [List.map_append, List.map_cons, List.map_nil, forgetSink]
          · rw [readLoop_unexpected K wOut wErr r xs tr h1 h2 h3,
              readLoop_unexpected K _ _ r xs _ h1 h2 h3]
            simp only [List.map_append, List.map_cons, List.map_nil, forgetSink]

theorem preamble_forget (K : consts) (req : Request) :
    (preamble K req).map forgetSink = preamble K req := by
  unfold preamble
  split_ifs <;> rfl

theorem reading_forget (K : consts) (cn : conn) (wOut wErr : Writer) (err : Option Nat)
    (tr : List action) :
    Handle.reading K cn okWriter okWriter err (tr.map forgetSink) =
      ((Handle.reading K cn wOut wErr err tr).1,
        (Handle.reading K cn wOut wErr err tr).2.1.map forgetSink,
        (Handle.reading K cn wOut wErr err tr).2.2) := by
  unfold Handle.reading
  rw [readLoop_forget K wOut wErr]
  rcases h : Handle.readLoop K wOut wErr cn.reads tr with ⟨x, tr1, rest⟩
  cases x <;> rfl

theorem body_forget (K : consts) (cn : conn) (wOut wErr : Writer) (req : Request) :
    Handle.body K cn okWriter okWriter req =
      ((Handle.body K cn wOut wErr req).1,
        (Handle.body K cn wOut wErr req).2.1.map forgetSink,
        (Handle.body K cn wOut wErr req).2.2) := by
  rcases write_cases K cn req with ⟨e, h⟩ | ⟨hb, e, h⟩ | ⟨hb, hp, hc, e, h⟩ | hok
  · rw [body_begin_fails K cn wOut wErr req e h, body_begin_fails K cn _ _ req e h]
    rfl
  · rw [body_pairs_fails K cn wOut wErr req e hb h, body_pairs_fails K cn _ _ req e hb h]
    rfl
  · rw [body_stdin_fails K cn wOut wErr req e hb hp hc h,
      body_stdin_fails K cn _ _ req e hb hp hc h]
    rfl
  · rw [body_writesOk K cn wOut wErr req hok, body_writesOk K cn _ _ req hok,
      ← reading_forget, preamble_forget]

/-- `Handle` with any sinks, compared with `Handle` with sinks that always succeed. -/
theorem Handle_forget (K : consts) (cn : conn) (wOut wErr : Writer) (c : client)
    (req : Request) :
    Handle K cn okWriter okWriter c req =
      { exit := (Handle K cn wOut wErr c req).exit,
        trace := (Handle K cn wOut wErr c req).trace.map forgetSink,
        unread := (Handle K cn wOut wErr c req).unread,
        c := (Handle K cn wOut wErr c req).c } := by
  have hb := body_forget K cn wOut wErr req
  by_cases hbl : (Handle.body K cn wOut wErr req).1 = .blocked
  · have hbl2 : (Handle.body K cn okWriter okWriter req).1 = .blocked := by
      rw [hb]; exact hbl
    rw [Handle_of_body_blocked K cn _ _ c req hbl2,
      Handle_of_body_blocked K cn wOut wErr c req hbl, hb]
  · have hbl2 : (Handle.body K cn okWriter okWriter req).1 ≠ .blocked := by
      rw [hb]; exact hbl
    rw [Handle_of_body K cn _ _ c req hbl2, Handle_of_body K cn wOut wErr c req hbl, hb]
    simp only [List.map_append, List.map_cons, List.map_nil, forgetSink]

/-- C20: `Handle` ignores what `wOut.Write` and `wErr.Write` return.  On the same
connection and request, with any two pairs of sinks (succeeding or failing in any way),
the outcome and the error returned, the read results consumed and their number, the
chunks handed to each sink, the records left unread and the client state are the same;
the actions differ in nothing but the results of the sink writes. -/
theorem Handle_ignores_sink_results (K : consts) (cn : conn) (wOut wErr wOut2 wErr2 : Writer)
    (c : client) (req : Request) :
    (Handle K cn wOut wErr c req).exit = (Handle K cn wOut2 wErr2 c req).exit ∧
    readsDone (Handle K cn wOut wErr c req).trace =
      readsDone (Handle K cn wOut2 wErr2 c req).trace ∧
    outChunks (Handle K cn wOut wErr c req).trace =
      outChunks (Handle K cn wOut2 wErr2 c req).trace ∧
    errChunks (Handle K cn wOut wErr c req).trace =
      errChunks (Handle K cn wOut2 wErr2 c req).trace ∧
    (Handle K cn wOut wErr c req).unread = (Handle K cn wOut2 wErr2 c req).unread ∧
    (Handle K cn wOut wErr c req).c = (Handle K cn wOut2 wErr2 c req).c ∧
    (Handle K cn wOut wErr c req).trace.map forgetSink =
      (Handle K cn wOut2 wErr2 c req).trace.map forgetSink := by
  have h1 := Handle_forget K cn wOut wErr c req
  have h2 := Handle_forget K cn wOut2 wErr2 c req
  rw [h1] at h2
  simp only [handled.mk.injEq] at h2
  obtain ⟨he, ht, hu, hc⟩ := h2
  refine ⟨he, ?_, ?_, ?_, hu, hc, ht⟩
  · rw [← readsDone_forget, ht, readsDone_forget]
  · rw [← outChunks_forget, ht, outChunks_forget]
  · rw [← errChunks_forget, ht, errChunks_forget]

/-! ## `NewRequest` -/

/-- `NewRequest` is its `AllocID` call followed by the struct literal: it is parked
exactly when `AllocID` is, leaves the state `AllocID` leaves, and a returned request is
the returned id with empty `Params` and empty `Content`. -/
theorem NewRequest_eq (c : client) (sched : List Nat) :
    (NewRequest c sched).isBlocked = (AllocID c sched).isBlocked ∧
    (NewRequest c sched).state = (AllocID c sched).state ∧
    (NewRequest c sched).val? =
      (AllocID c sched).val?.map (fun v => { ID := v, Params := [], Content := [] }) := by
  unfold NewRequest
  cases AllocID c sched with
  | returned v c1 => exact ⟨rfl, rfl, rfl⟩
  | blocked c1 => exact ⟨rfl, rfl, rfl⟩

/-- C14: in any state reachable from a fresh client, `NewRequest` returns exactly when its
one `AllocID` call returns (so whenever some `uint16` value is not in use), it leaves the
client as that call leaves it, and the request returned has as `ID` the id that call
returned, empty `Params` and empty `Content`.  The `ID` was not in use before the call,
hence differs from the id of every request not yet released; after the call it is marked
in-use and no other mark has changed. -/
theorem NewRequest_fresh (calls : List call) (sched : List Nat) :
    (NewRequest (run NewClient calls).2 sched).isBlocked =
      (AllocID (run NewClient calls).2 sched).isBlocked ∧
    (NewRequest (run NewClient calls).2 sched).state =
      (AllocID (run NewClient calls).2 sched).state ∧
    (NewRequest (run NewClient calls).2 sched).val? =
      (AllocID (run NewClient calls).2 sched).val?.map
        (fun v => { ID := v, Params := [], Content := [] }) ∧
    ((∃ i, i < 65536 ∧ (run NewClient calls).2.ids i = false) →
      ∃ req, (NewRequest (run NewClient calls).2 sched).val? = some req) ∧
    (∀ req, (NewRequest (run NewClient calls).2 sched).val? = some req →
      (AllocID (run NewClient calls).2 sched).val? = some req.ID ∧
      inUse (run NewClient calls).1 req.ID = false ∧
      (∀ j, inUse (run NewClient calls).1 j = true → j ≠ req.ID) ∧
      (NewRequest (run NewClient calls).2 sched).state.ids req.ID = true ∧
      (∀ k, k ≠ req.ID →
        (NewRequest (run NewClient calls).2 sched).state.ids k =
          (run NewClient calls).2.ids k) ∧
      inUse ((run NewClient calls).1 ++ [.allocated req.ID]) req.ID = true ∧
      req.Params = [] ∧ req.Content = []) := by
  have hinv := run_inUse calls NewClient [] NewClient_inUse
  simp only [List.nil_append] at hinv
  obtain ⟨e1, e2, e3⟩ := NewRequest_eq (run NewClient calls).2 sched
  refine ⟨e1, e2, e3, ?_, ?_⟩
  · rintro ⟨i, hi, hf⟩
    have hk := run_keeps calls NewClient NewClient_keeps
    obtain ⟨v, c1, h1, _, _, _⟩ :=
      AllocID_progress _ (run NewClient calls).2 sched i rfl (hk i hi hf) hf
    rw [e3, h1]
    exact ⟨_, rfl⟩
  · intro req h
    rw [e2]
    rw [e3] at h
    cases ha : AllocID (run NewClient calls).2 sched with
    | blocked c1 => rw [ha] at h; simp [blocking.val?] at h
    | returned v c1 =>
      rw [ha] at h
      simp only [blocking.val?, Option.map_some', Option.some.injEq] at h
      subst h
      obtain ⟨hfree, hmark⟩ := (AllocID_loop_ids _ _ sched).1 v c1 ha
      have hnot : inUse (run NewClient calls).1 v = false := by rw [← hinv]; exact hfree
      refine ⟨rfl, hnot, ?_, ?_, ?_, ?_, rfl, rfl⟩
      · intro j hj hjv
        rw [hjv, hnot] at hj
        cases hj
      · simp only [blocking.state]
        rw [hmark]
        simp
      · intro k hk
        simp only [blocking.state]
        rw [hmark]
        simp only at hk
        simp [hk]
      · rw [inUse_append_allocated]
        simp

theorem NewRequest_fresh_witness :
    (∃ i, i < 65536 ∧ (run NewClient [.alloc [], .alloc [], .release 0]).2.ids i = false) ∧
    (NewRequest (run NewClient [.alloc [], .alloc [], .release 0]).2 [1]).val?
      = some ⟨0, [], []⟩ ∧
    (∃ req, (NewRequest (run NewClient [.alloc [], .alloc [], .release 0]).2 [1]).val?
      = some req) ∧
    inUse (run NewClient [.alloc [], .alloc [], .release 0]).1 0 = false ∧
    (NewRequest (run NewClient [.alloc [], .alloc [], .release 0]).2 [1]).state.ids 0 = true :=
  ⟨⟨0, by decide, by decide⟩, by decide,
    (NewRequest_fresh [.alloc [], .alloc [], .release 0] [1]).2.2.2.1
      ⟨0, by decide, by decide⟩,
    ((NewRequest_fresh [.alloc [], .alloc [], .release 0] [1]).2.2.2.2 ⟨0, [], []⟩
      (by decide)).2.1,
    ((NewRequest_fresh [.alloc [], .alloc [], .release 0] [1]).2.2.2.2 ⟨0, [], []⟩
      (by decide)).2.2.2.1⟩

/-! ## Calls as interleaved steps: agreement with the calls run whole -/

theorem solo_allocDone (n : Nat) (c : client) (sched : List Nat) (v : Nat) :
    solo n c sched (.allocDone v) = (.allocDone v, c) := by
  cases n <;> rfl

/-- A `ReleaseID` call on its own is through after its two steps, in the state
`ReleaseID` gives. -/
theorem solo_ReleaseID (n : Nat) (c : client) (sched : List Nat) (j : Nat) :
    solo (n + 2) c sched (.releaseClear j) = (.releaseDone, ReleaseID c j) := by
  cases n <;> rfl

/-- An `AllocID` call run on its own, step by step, ends as `AllocID` says: returned with
the same id and state, or parked at the receive in the same state. -/
theorem solo_AllocID (n : Nat) (c : client) (sched : List Nat) (fuel : Nat)
    (hn : remaining c = n) (hfuel : 3 * n + 3 ≤ fuel) :
    solo fuel c sched .allocRecv =
      match AllocID c sched with
      | .returned v c1 => (.allocDone v, c1)
      | .blocked c1 => (.allocRecv, c1) := by
  induction n using Nat.strong_induction_on generalizing c sched fuel with
  | _ n ih =>
    rw [AllocID_unfold]
    cases hr : recv c (sched.headD 0) with
    | none =>
      cases fuel with
      | zero => rfl
      | succ f => simp only [solo, stepCall, hr]
    | some p =>
      obtain ⟨v, c1⟩ := p
      have hrem := recv_remaining hr
      obtain ⟨f, rfl⟩ : ∃ f, fuel = f + 3 := ⟨fuel - 3, by omega⟩
      by_cases hv : c1.ids v = true
      · simp only [solo, stepCall, hr, hv, if_true]
        exact ih (remaining c1) (by omega) c1 sched.tail (f + 1) rfl (by omega)
      · have hv2 : c1.ids v = false := by simpa using hv
        simp only [solo, stepCall, hr, hv2, Bool.false_eq_true, if_false, solo_allocDone]

/-- A world whose only call has returned from `ReleaseID` does not move any more. -/
theorem interleave_releaseDone (c : client) (later : List (Nat × Nat)) :
    interleave ⟨c, [.releaseDone]⟩ later = ⟨c, [.releaseDone]⟩ := by
  induction later with
  | nil => rfl
  | cons x xs ih =>
    obtain ⟨k, pick⟩ := x
    have hs : world.step ⟨c, [.releaseDone]⟩ k pick = ⟨c, [.releaseDone]⟩ := by
      cases k <;> rfl
    simp only [interleave, hs, ih]

/-- Only the receive of an `AllocID` call takes a pending send off the channel: a step of
a call that is not at the receive leaves the generator as it is and every waiting
goroutine in place. -/
theorem step_keeps_waiting (w : world) (k pick : Nat)
    (h : w.calls[k]? ≠ some .allocRecv) :
    (w.step k pick).c.chanID.gen = w.c.chanID.gen ∧
    ∃ t, (w.step k pick).c.chanID.waiting = w.c.chanID.waiting ++ t := by
  unfold world.step
  cases hk : w.calls[k]? with
  | none => exact ⟨rfl, [], by simp⟩
  | some p =>
    rw [hk] at h
    cases p with
    | allocRecv => exact absurd rfl h
    | allocTest v => exact ⟨rfl, [], by simp [stepCall]⟩
    | allocMark v => exact ⟨rfl, [], by simp [stepCall]⟩
    | allocDone v => exact ⟨rfl, [], by simp [stepCall]⟩
    | releaseClear j => exact ⟨rfl, [], by simp [stepCall]⟩
    | releaseGo j => exact ⟨rfl, [j], by simp [stepCall]⟩
    | releaseDone => exact ⟨rfl, [], by simp [stepCall]⟩

/-- C15: `ReleaseID` returns control to its caller in every state and for every id,
without waiting for any `AllocID`.  Each of the caller's two steps can be taken in every
state and whatever the other calls do: the first only clears the mark of the id, the
second only starts the goroutine, whose send is from then on pending on the channel.
After these two steps the call has returned although no receive has taken place (no
other call has moved, one more send is pending than before); with no `AllocID` call at
all the call has returned all the same and stays so under every continuation.  The id is
handed back later, by the receive of some `AllocID` paired with that goroutine: no step
of any call other than such a receive takes a pending send off the channel. -/
theorem ReleaseID_never_blocks (c : client) (reqID p1 p2 : Nat) (others : List pc) :
    stepCall c p1 (.releaseClear reqID) =
      some (.releaseGo reqID, { c with ids := fun k => if k = reqID then false else c.ids k }) ∧
    stepCall c p2 (.releaseGo reqID) =
      some (.releaseDone,
        { c with chanID := { c.chanID with waiting := c.chanID.waiting ++ [reqID] } }) ∧
    (∀ (w : world) (k : Nat), w.calls[k]? = some (.releaseClear reqID) →
      (w.step k p1).calls[k]? = some (.releaseGo reqID)) ∧
    (∀ (w : world) (k : Nat), w.calls[k]? = some (.releaseGo reqID) →
      (w.step k p2).calls[k]? = some .releaseDone ∧
      reqID ∈ (w.step k p2).c.chanID.waiting ∧
      remaining (w.step k p2).c = remaining w.c + 1) ∧
    interleave ⟨c, .releaseClear reqID :: others⟩ [(0, p1), (0, p2)] =
      ⟨ReleaseID c reqID, .releaseDone :: others⟩ ∧
    (∀ later, interleave ⟨c, [.releaseClear reqID]⟩ ((0, p1) :: (0, p2) :: later) =
      ⟨ReleaseID c reqID, [.releaseDone]⟩) ∧
    (ReleaseID c reqID).ids reqID = false ∧
    (∀ k, k ≠ reqID → (ReleaseID c reqID).ids k = c.ids k) ∧
    (ReleaseID c reqID).chanID.waiting = c.chanID.waiting ++ [reqID] ∧
    remaining (ReleaseID c reqID) = remaining c + 1 ∧
    (∃ pick, recv (ReleaseID c reqID) pick =
      some (reqID, { chanID := c.chanID, ids := (ReleaseID c reqID).ids })) ∧
    (∀ (w : world) (k pick : Nat), w.calls[k]? ≠ some .allocRecv →
      (w.step k pick).c.chanID.gen = w.c.chanID.gen ∧
      ∃ t, (w.step k pick).c.chanID.waiting = w.c.chanID.waiting ++ t) := by
  have hrem : remaining (ReleaseID c reqID) = remaining c + 1 := by
    simp only [remaining, ReleaseID, List.length_append, List.length_singleton]
    omega
  have htwo : interleave ⟨c, .releaseClear reqID :: others⟩ [(0, p1), (0, p2)] =
      ⟨ReleaseID c reqID, .releaseDone :: others⟩ := by
    simp [interleave, world.step, stepCall, ReleaseID]
  refine ⟨rfl, rfl, ?_, ?_, htwo, ?_, by simp [ReleaseID], ?_, rfl, hrem,
    ⟨_, recv_released c reqID⟩, step_keeps_waiting⟩
  · intro w k hk
    have hlt : k < w.calls.length := by
      rcases Nat.lt_or_ge k w.calls.length with h | h
      · exact h
      · rw [List.getElem?_eq_none h] at hk; cases hk
    simp only [world.step, hk, stepCall]
    exact List.getElem?_set_self hlt
  · intro w k hk
    have hlt : k < w.calls.length := by
      rcases Nat.lt_or_ge k w.calls.length with h | h
      · exact h
      · rw [List.getElem?_eq_none h] at hk; cases hk
    simp only [world.step, hk, stepCall]
    refine ⟨List.getElem?_set_self hlt, by simp, ?_⟩
    simp only [remaining, List.length_append, List.length_singleton]
    omega
  · intro later
    have h2 : interleave ⟨c, [.releaseClear reqID]⟩ ((0, p1) :: (0, p2) :: later) =
        interleave ⟨ReleaseID c reqID, [.releaseDone]⟩ later := by
      simp [interleave, world.step, stepCall, ReleaseID]
    rw [h2, interleave_releaseDone]
  · intro k hk
    simp [ReleaseID, hk]

/-- C16, as the code has it: id `0` has been allocated and released twice, so two
goroutines wait to send `0`.  Two `AllocID` calls run concurrently: each receives one of
the two copies, each tests `c.ids[0]` before the other has set it, and both return `0`.
Run one after the other, the same two calls return `0` and `1`. -/
theorem concurrent_AllocID_duplicate :
    (interleave ⟨(run NewClient [.alloc [], .release 0, .release 0]).2,
        [.allocRecv, .allocRecv]⟩
      [(0, 1), (1, 1), (0, 0), (1, 0)]).calls = [.allocMark 0, .allocMark 0] ∧
    (interleave ⟨(run NewClient [.alloc [], .release 0, .release 0]).2,
        [.allocRecv, .allocRecv]⟩
      [(0, 1), (1, 1), (0, 0), (1, 0), (0, 0), (1, 0)]).calls
        = [.allocDone 0, .allocDone 0] ∧
    (interleave ⟨(run NewClient [.alloc [], .release 0, .release 0]).2,
        [.allocRecv, .allocRecv]⟩
      [(0, 1), (0, 0), (0, 0), (1, 1), (1, 0), (1, 0), (1, 0), (1, 0)]).calls
        = [.allocDone 0, .allocDone 1] := by
  decide

/-! ## A released id that is not handed out again -/

theorem run_starve_start :
    run NewClient [.alloc [], .alloc [], .release 0] =
      ([.allocated 0, .allocated 1, .released 0], zeroWaiting) := by
  have h2 : run NewClient [.alloc [], .alloc []] =
      ([.allocated 0, .allocated 1], allocatedUpTo 2) := by
    have := run_allocs [[], []] 0 (by decide)
    rw [← NewClient_eq] at this
    exact this
  have hrel : ReleaseID (allocatedUpTo 2) 0 = zeroWaiting := by
    simp only [ReleaseID, allocatedUpTo, zeroWaiting, List.nil_append, client.mk.injEq,
      true_and]
    funext k
    by_cases h0 : k = 0
    · simp [h0]
    · have : (k < 2) = (k = 1) := by
        apply propext; constructor <;> intro <;> omega
      simp [h0, this]
  have happ := run_append NewClient [.alloc [], .alloc []] [.release 0]
  rw [h2] at happ
  have hlist : [call.alloc [], call.alloc []] ++ [call.release 0] =
      [.alloc [], .alloc [], .release 0] := rfl
  rw [hlist] at happ
  rw [happ]
  simp only [run_cons, run_nil, step, hrel]
  rfl

/-- One round, `ReleaseID(1)` and an `AllocID` paired with its goroutine, returns `1` and
leaves the client as it was, the released `0` still waiting. -/
theorem run_starve_round :
    run zeroWaiting [.release 1, .alloc [2]] = ([.released 1, .allocated 1], zeroWaiting) := by
  have hr : recv (ReleaseID zeroWaiting 1) 2 =
      some (1, { ReleaseID zeroWaiting 1 with chanID := { gen := 2, waiting := [0] } }) := by
    simp [recv, offers, ReleaseID, zeroWaiting, genOffer]
  have ha : AllocID (ReleaseID zeroWaiting 1) [2] = .returned 1 zeroWaiting := by
    rw [AllocID_unfold]
    simp only [List.headD_cons, hr]
    have h1 : (ReleaseID zeroWaiting 1).ids 1 = false := by simp [ReleaseID]
    simp only [h1, Bool.false_eq_true, if_false, blocking.returned.injEq, true_and]
    simp only [zeroWaiting, ReleaseID, client.mk.injEq, true_and]
    funext k
    by_cases hk : k = 1
    · simp [hk]
    · simp [hk]
  simp only [run_cons, run_nil, step, ha]

theorem run_starve_rounds (n : Nat) :
    allocatedIds (run zeroWaiting (releaseAllocRounds n)).1 = List.replicate n 1 ∧
    (run zeroWaiting (releaseAllocRounds n)).2 = zeroWaiting := by
  induction n with
  | zero => exact ⟨rfl, rfl⟩
  | succ m ih =>
    have happ := run_append zeroWaiting [.release 1, .alloc [2]] (releaseAllocRounds m)
    have hl : [call.release 1, call.alloc [2]] ++ releaseAllocRounds m =
        releaseAllocRounds (m + 1) := rfl
    rw [hl, run_starve_round] at happ
    rw [happ]
    constructor
    · show allocatedIds (.released 1 :: .allocated 1 ::
        (run zeroWaiting (releaseAllocRounds m)).1) = _
      simp only [allocatedIds, ih.1, List.replicate_succ]
    · exact ih.2

/-- C17, as the code has it: after `AllocID`, `AllocID`, `ReleaseID(0)` the id `0` waits on
the channel.  However many rounds of `ReleaseID(1)`, `AllocID` follow (a well-formed use),
with each `AllocID` paired with the goroutine of the release just before it, every one of
these later `AllocID` calls returns `1` and none returns the released `0`. -/
theorem released_id_not_returned :
    wellFormed [] NewClient
      ([.alloc [], .alloc [], .release 0] ++ releaseAllocRounds 40) = true ∧
    allocatedIds (run (run NewClient [.alloc [], .alloc [], .release 0]).2
      (releaseAllocRounds 40)).1 = List.replicate 40 1 ∧
    (∀ n, 0 ∉ allocatedIds (run (run NewClient [.alloc [], .alloc [], .release 0]).2
      (releaseAllocRounds n)).1) := by
  refine ⟨by decide, ?_, ?_⟩
  · rw [run_starve_start]
    exact (run_starve_rounds 40).1
  · intro n
    rw [run_starve_start, (run_starve_rounds n).1]
    intro h
    have := List.eq_of_mem_replicate h
    omega

theorem ReleaseID_never_blocks_witness :
    (world.mk NewClient [.allocRecv, .releaseClear 7]).calls[1]? = some (.releaseClear 7) ∧
    ((world.mk NewClient [.allocRecv, .releaseClear 7]).step 1 0).calls[1]?
      = some (.releaseGo 7) ∧
    (interleave ⟨NewClient, [.releaseClear 7, .allocRecv]⟩ [(0, 0), (0, 0)]).calls
      = [.releaseDone, .allocRecv] :=
  ⟨rfl,
    (ReleaseID_never_blocks NewClient 7 0 0 []).2.2.1 ⟨NewClient, [.allocRecv, .releaseClear 7]⟩
      1 rfl,
    congrArg world.calls (ReleaseID_never_blocks NewClient 7 0 0 [.allocRecv]).2.2.2.2.1⟩

end Gofast
